import Mathlib

set_option linter.unusedSectionVars false

unseal Rat.mul Rat.add Rat.sub Rat.inv

/-!
A verification development for the chaining hash tables implemented in
`src/UnorderedMap.cpp` and `src/UnorderedSet.cpp` of the LowLevelDesign
repository.

Modelling conventions:
* `std::vector<std::list<...>>* buckets` is a `List (List _)`; the pointer
  indirection and the move/copy lifecycle are irrelevant to the verified
  claims and are not modelled.
* `size_t` fields are `Nat`.
* `float max_load_factor_` and the float arithmetic of `load_factor()` and
  the rehash-trigger comparisons are modelled exactly over `ℚ`; the C++
  `float`-to-`size_t` conversion in `rehash(size_ / max_load_factor_ + 1)`
  truncates, modelled by `Rat.floor` composed with `Int.toNat` (the
  operand is nonnegative in every defined execution).
* `std::hash<Key>` is an arbitrary function `hash : K → Nat`.
* Key equality `pair.key == key` is `decide (pair.1 = k)` over a
  `DecidableEq` key type.
-/

namespace LLD

/-- One step of the C++ rehash loop:
`(*new_buckets)[iota e].push_back(e)` where `iota e = hash e % new_bucket_count`. -/
def placeAux {α : Type} (iota : α → Nat) (bs : List (List α)) (a : α) : List (List α) :=
  bs.set (iota a) (bs.getD (iota a) [] ++ [a])

/-- The C++ rehash loop: every stored entry, taken in bucket order, is appended to
its recomputed bucket in a fresh array of `n` empty buckets. -/
def redistribute {α : Type} (iota : α → Nat) (n : Nat) (l : List α) : List (List α) :=
  l.foldl (placeAux iota) (List.replicate n [])

/-- State of `UnorderedMap<Key, Value>`: the bucket array, the stored entry count
`size_`, the bucket count `bucket_count_` and the threshold `max_load_factor_`. -/
structure UnorderedMap (K V : Type) where
  buckets : List (List (K × V))
  size_ : Nat
  bucket_count_ : Nat
  max_load_factor_ : ℚ
deriving DecidableEq

namespace UnorderedMap

variable {K V : Type} [DecidableEq K]

/-- Default constructor `UnorderedMap()` / parameterized `UnorderedMap(bucket_count)`:
`size_ = 0`, `max_load_factor_ = 1.0`, `bucket_count` empty buckets.
The C++ constructor performs no validation of `bucket_count`. -/
def make (bucket_count : Nat) : UnorderedMap K V :=
  { buckets := List.replicate bucket_count []
    size_ := 0
    bucket_count_ := bucket_count
    max_load_factor_ := 1 }

/-- Private `hash`: `std::hash<Key>{}(key) % bucket_count_`. -/
def hashIndex (hash : K → Nat) (t : UnorderedMap K V) (k : K) : Nat :=
  hash k % t.bucket_count_

/-- Private `find_in_bucket`: `std::find_if` over the bucket at `index` with
predicate `pair.key == key`; `none` models the end iterator. -/
def find_in_bucket (t : UnorderedMap K V) (k : K) (index : Nat) : Option (K × V) :=
  (t.buckets.getD index []).find? (fun pair => decide (pair.1 = k))

/-- Private `rehash(new_bucket_count)`: allocate `new_bucket_count` empty buckets,
re-place every entry by `hash(key) % new_bucket_count`, keep `size_` and
`max_load_factor_`, set `bucket_count_ = new_bucket_count`. -/
def rehash (hash : K → Nat) (t : UnorderedMap K V) (new_bucket_count : Nat) :
    UnorderedMap K V :=
  { buckets :=
      redistribute (fun pair => hash pair.1 % new_bucket_count) new_bucket_count
        t.buckets.flatten
    size_ := t.size_
    bucket_count_ := new_bucket_count
    max_load_factor_ := t.max_load_factor_ }

/-- The shared emplace step of `insert` / `insert_or_assign` / `operator[]`:
`(*buckets)[index].emplace_back(key, value); ++size_;`. -/
def emplaceAt (t : UnorderedMap K V) (index : Nat) (k : K) (v : V) : UnorderedMap K V :=
  { t with
    buckets := t.buckets.set index (t.buckets.getD index [] ++ [(k, v)])
    size_ := t.size_ + 1 }

/-- The shared growth check of `insert` / `insert_or_assign` / `operator[]`:
`if (size_ > bucket_count_ * max_load_factor_) rehash(bucket_count_ * 2);`. -/
def growIfNeeded (hash : K → Nat) (t : UnorderedMap K V) : UnorderedMap K V :=
  if (t.size_ : ℚ) > (t.bucket_count_ : ℚ) * t.max_load_factor_ then
    t.rehash hash (t.bucket_count_ * 2)
  else t

/-- `insert(key, value) -> bool`: scan the target bucket; if the key is present
return `false` without modification, otherwise emplace, bump `size_`, grow if the
threshold is exceeded, and return `true`. -/
def insert (hash : K → Nat) (t : UnorderedMap K V) (k : K) (v : V) :
    UnorderedMap K V × Bool :=
  let index := t.hashIndex hash k
  match t.find_in_bucket k index with
  | some _ => (t, false)
  | none => ((t.emplaceAt index k v).growIfNeeded hash, true)

/-- The found-branch of `insert_or_assign`: `it->value = value;` — overwrite the
value of the first entry of the bucket whose key equals `k`. -/
def assignInBucket (k : K) (v : V) : List (K × V) → List (K × V)
  | [] => []
  | pair :: rest =>
    if pair.1 = k then (pair.1, v) :: rest else pair :: assignInBucket k v rest

/-- `insert_or_assign(key, value)`: if the key is absent behave exactly like a
successful `insert`; otherwise overwrite the stored value in place. -/
def insert_or_assign (hash : K → Nat) (t : UnorderedMap K V) (k : K) (v : V) :
    UnorderedMap K V :=
  let index := t.hashIndex hash k
  match t.find_in_bucket k index with
  | some _ =>
    { t with buckets := t.buckets.set index (assignInBucket k v (t.buckets.getD index [])) }
  | none => (t.emplaceAt index k v).growIfNeeded hash

/-- `operator[](key)`: if present, return the stored value without mutation;
if absent, emplace `(key, Value())` (value-initialized, `vdef` here), bump
`size_`, grow if needed, and return the just-inserted value.
The C++ body returns `list.back().value` through a reference captured before a
possible rehash; the model returns the inserted value itself. -/
def access (hash : K → Nat) (vdef : V) (t : UnorderedMap K V) (k : K) :
    V × UnorderedMap K V :=
  let index := t.hashIndex hash k
  match t.find_in_bucket k index with
  | some pair => (pair.2, t)
  | none => (vdef, (t.emplaceAt index k vdef).growIfNeeded hash)

/-- `erase(key) -> bool`: remove the first matching entry of the target bucket and
decrement `size_`; if the key is absent return `false` with no mutation. -/
def erase (hash : K → Nat) (t : UnorderedMap K V) (k : K) : UnorderedMap K V × Bool :=
  let index := t.hashIndex hash k
  match t.find_in_bucket k index with
  | some _ =>
    ({ t with
        buckets := t.buckets.set index
          ((t.buckets.getD index []).eraseP (fun pair => decide (pair.1 = k)))
        size_ := t.size_ - 1 }, true)
  | none => (t, false)

/-- `contains(key) -> bool`. -/
def contains (hash : K → Nat) (t : UnorderedMap K V) (k : K) : Bool :=
  (t.find_in_bucket k (t.hashIndex hash k)).isSome

/-- The value observation used by the claims ("the stored value for k"):
the value component of the `find_in_bucket` result at the key's bucket. -/
def find_value (hash : K → Nat) (t : UnorderedMap K V) (k : K) : Option V :=
  (t.find_in_bucket k (t.hashIndex hash k)).map Prod.snd

/-- `clear()`: empty every bucket, reset `size_`; `bucket_count_` unchanged. -/
def clear (t : UnorderedMap K V) : UnorderedMap K V :=
  { t with buckets := t.buckets.map (fun _ => []), size_ := 0 }

/-- `load_factor()`: `size_ / bucket_count_` (exact rational in the model). -/
def load_factor (t : UnorderedMap K V) : ℚ :=
  (t.size_ : ℚ) / (t.bucket_count_ : ℚ)

/-- Setter `max_load_factor(mlf)`: store `mlf` unconditionally (no validation);
if now `load_factor() > max_load_factor_`, rehash to
`size_t(size_ / max_load_factor_ + 1)` buckets (float division, truncated). -/
def max_load_factor (hash : K → Nat) (t : UnorderedMap K V) (mlf : ℚ) :
    UnorderedMap K V :=
  let t1 := { t with max_load_factor_ := mlf }
  if t1.load_factor > mlf then
    t1.rehash hash (Rat.floor ((t1.size_ : ℚ) / mlf + 1)).toNat
  else t1

/-- All stored entries in bucket order. -/
def entries (t : UnorderedMap K V) : List (K × V) :=
  t.buckets.flatten

/-- Well-formedness of a reachable map state: the bucket array has exactly
`bucket_count_` buckets, at least one bucket exists, `size_` counts the stored
entries, keys are pairwise distinct, and every entry sits in the bucket given by
`hash key % bucket_count_`. -/
def WF (hash : K → Nat) (t : UnorderedMap K V) : Prop :=
  t.buckets.length = t.bucket_count_ ∧
  0 < t.bucket_count_ ∧
  t.size_ = t.entries.length ∧
  (t.entries.map Prod.fst).Nodup ∧
  ∀ i < t.buckets.length, ∀ p ∈ t.buckets.getD i [], hash p.1 % t.bucket_count_ = i

instance (hash : K → Nat) (t : UnorderedMap K V) : Decidable (WF hash t) := by
  unfold WF
  infer_instance

end UnorderedMap

/-- State of `UnorderedSet<T>`. -/
structure UnorderedSet (T : Type) where
  buckets : List (List T)
  size_ : Nat
  bucket_count_ : Nat
  max_load_factor_ : ℚ
deriving DecidableEq

namespace UnorderedSet

variable {T : Type} [DecidableEq T]

/-- `UnorderedSet()` / `UnorderedSet(bucket_count)` (no validation). -/
def make (bucket_count : Nat) : UnorderedSet T :=
  { buckets := List.replicate bucket_count []
    size_ := 0
    bucket_count_ := bucket_count
    max_load_factor_ := 1 }

/-- Private `hash`: `std::hash<T>{}(key) % bucket_count_`. -/
def hashIndex (hash : T → Nat) (s : UnorderedSet T) (k : T) : Nat :=
  hash k % s.bucket_count_

/-- Private `find_in_bucket`: `std::find` over the bucket at `index`. -/
def find_in_bucket (s : UnorderedSet T) (k : T) (index : Nat) : Option T :=
  (s.buckets.getD index []).find? (fun x => decide (x = k))

/-- Private `rehash(new_bucket_count)`. -/
def rehash (hash : T → Nat) (s : UnorderedSet T) (new_bucket_count : Nat) :
    UnorderedSet T :=
  { buckets :=
      redistribute (fun x => hash x % new_bucket_count) new_bucket_count
        s.buckets.flatten
    size_ := s.size_
    bucket_count_ := new_bucket_count
    max_load_factor_ := s.max_load_factor_ }

/-- `(*buckets)[index].push_back(key); ++size_;`. -/
def emplaceAt (s : UnorderedSet T) (index : Nat) (k : T) : UnorderedSet T :=
  { s with
    buckets := s.buckets.set index (s.buckets.getD index [] ++ [k])
    size_ := s.size_ + 1 }

/-- `if (size_ > bucket_count_ * max_load_factor_) rehash(bucket_count_ * 2);`. -/
def growIfNeeded (hash : T → Nat) (s : UnorderedSet T) : UnorderedSet T :=
  if (s.size_ : ℚ) > (s.bucket_count_ : ℚ) * s.max_load_factor_ then
    s.rehash hash (s.bucket_count_ * 2)
  else s

/-- `insert(key) -> bool`. -/
def insert (hash : T → Nat) (s : UnorderedSet T) (k : T) : UnorderedSet T × Bool :=
  let index := s.hashIndex hash k
  match s.find_in_bucket k index with
  | some _ => (s, false)
  | none => ((s.emplaceAt index k).growIfNeeded hash, true)

/-- `erase(key) -> bool`. -/
def erase (hash : T → Nat) (s : UnorderedSet T) (k : T) : UnorderedSet T × Bool :=
  let index := s.hashIndex hash k
  match s.find_in_bucket k index with
  | some _ =>
    ({ s with
        buckets := s.buckets.set index
          ((s.buckets.getD index []).eraseP (fun x => decide (x = k)))
        size_ := s.size_ - 1 }, true)
  | none => (s, false)

/-- `contains(key) -> bool`. -/
def contains (hash : T → Nat) (s : UnorderedSet T) (k : T) : Bool :=
  (s.find_in_bucket k (s.hashIndex hash k)).isSome

/-- `clear()`. -/
def clear (s : UnorderedSet T) : UnorderedSet T :=
  { s with buckets := s.buckets.map (fun _ => []), size_ := 0 }

/-- `load_factor()`. -/
def load_factor (s : UnorderedSet T) : ℚ :=
  (s.size_ : ℚ) / (s.bucket_count_ : ℚ)

/-- Setter `max_load_factor(mlf)` (no validation of `mlf`). -/
def max_load_factor (hash : T → Nat) (s : UnorderedSet T) (mlf : ℚ) : UnorderedSet T :=
  let s1 := { s with max_load_factor_ := mlf }
  if s1.load_factor > mlf then
    s1.rehash hash (Rat.floor ((s1.size_ : ℚ) / mlf + 1)).toNat
  else s1

/-- All stored elements in bucket order. -/
def entries (s : UnorderedSet T) : List T :=
  s.buckets.flatten

/-- Well-formedness of a reachable set state. -/
def WF (hash : T → Nat) (s : UnorderedSet T) : Prop :=
  s.buckets.length = s.bucket_count_ ∧
  0 < s.bucket_count_ ∧
  s.size_ = s.entries.length ∧
  s.entries.Nodup ∧
  ∀ i < s.buckets.length, ∀ x ∈ s.buckets.getD i [], hash x % s.bucket_count_ = i

instance (hash : T → Nat) (s : UnorderedSet T) : Decidable (WF hash s) := by
  unfold WF
  infer_instance

end UnorderedSet

/-- The observable mutating operations of `UnorderedMap` (private `rehash` is
triggered from inside the inserting operations). -/
inductive MapOp (K V : Type) where
  | ins (k : K) (v : V)
  | upd (k : K) (v : V)
  | acc (k : K)
  | del (k : K)
  | clr

/-- Run a sequence of `UnorderedMap` operations left to right; `vdef` is the
value produced by `Value()` in `operator[]`. -/
def execMap {K V : Type} [DecidableEq K] (hash : K → Nat) (vdef : V) :
    List (MapOp K V) → UnorderedMap K V → UnorderedMap K V
  | [], t => t
  | op :: ops, t =>
    execMap hash vdef ops
      (match op with
       | .ins k v => (t.insert hash k v).1
       | .upd k v => t.insert_or_assign hash k v
       | .acc k => (t.access hash vdef k).2
       | .del k => (t.erase hash k).1
       | .clr => t.clear)

/-- The observable mutating operations of `UnorderedSet`. -/
inductive SetOp (T : Type) where
  | ins (k : T)
  | del (k : T)
  | clr

/-- Run a sequence of `UnorderedSet` operations left to right. -/
def execSet {T : Type} [DecidableEq T] (hash : T → Nat) :
    List (SetOp T) → UnorderedSet T → UnorderedSet T
  | [], s => s
  | op :: ops, s =>
    execSet hash ops
      (match op with
       | .ins k => (s.insert hash k).1
       | .del k => (s.erase hash k).1
       | .clr => s.clear)

/-- A concrete `UnorderedMap<size_t, size_t>` (identity hash) built by plain
inserts of the given keys, each with value `0`, starting from `bc` buckets. -/
def sampleMap (bc : Nat) (ks : List Nat) : UnorderedMap Nat Nat :=
  ks.foldl (fun t k => (t.insert id k 0).1) (UnorderedMap.make bc)

/-- A concrete `UnorderedSet<size_t>` (identity hash) built by inserts. -/
def sampleSet (bc : Nat) (ks : List Nat) : UnorderedSet Nat :=
  ks.foldl (fun s k => (s.insert id k).1) (UnorderedSet.make bc)

/-! ### Generic lemmas about bucket arrays (`List (List α)`) -/

section BucketLemmas

variable {α : Type}

theorem getD_set_self {bs : List (List α)} {i : Nat} {b : List α} (h : i < bs.length) :
    (bs.set i b).getD i [] = b := by
  simp [List.getD_eq_getElem?_getD, List.getElem?_set_self h]

theorem getD_set_ne {bs : List (List α)} {i j : Nat} (h : i ≠ j) (b : List α) :
    (bs.set i b).getD j [] = bs.getD j [] := by
  simp [List.getD_eq_getElem?_getD, List.getElem?_set_ne h]

theorem getD_replicate_nil (n i : Nat) : (List.replicate n ([] : List α)).getD i [] = [] := by
  rw [List.getD_eq_getElem?_getD, List.getElem?_replicate]
  split <;> rfl

theorem length_placeAux (iota : α → Nat) (bs : List (List α)) (a : α) :
    (placeAux iota bs a).length = bs.length := by
  simp [placeAux]

theorem length_foldl_placeAux (iota : α → Nat) (l : List α) (bs : List (List α)) :
    (l.foldl (placeAux iota) bs).length = bs.length := by
  induction l generalizing bs with
  | nil => rfl
  | cons a l ih => rw [List.foldl_cons, ih, length_placeAux]

theorem length_redistribute (iota : α → Nat) (n : Nat) (l : List α) :
    (redistribute iota n l).length = n := by
  rw [redistribute, length_foldl_placeAux, List.length_replicate]

theorem getD_placeAux (iota : α → Nat) (bs : List (List α)) (a : α) (i : Nat)
    (ha : iota a < bs.length) :
    (placeAux iota bs a).getD i [] =
      bs.getD i [] ++ (if iota a = i then [a] else []) := by
  unfold placeAux
  by_cases h : iota a = i
  · subst h
    rw [getD_set_self ha]
    simp
  · rw [getD_set_ne h]
    simp [h]

theorem getD_foldl_placeAux (iota : α → Nat) (l : List α) (bs : List (List α)) (i : Nat)
    (ha : ∀ a ∈ l, iota a < bs.length) :
    (l.foldl (placeAux iota) bs).getD i [] =
      bs.getD i [] ++ l.filter (fun a => decide (iota a = i)) := by
  induction l generalizing bs with
  | nil => simp
  | cons a l ih =>
    rw [List.foldl_cons,
      ih (placeAux iota bs a)
        (fun x hx => by rw [length_placeAux]; exact ha x (List.mem_cons_of_mem _ hx)),
      getD_placeAux iota bs a i (ha a (List.mem_cons_self _ _)),
      List.filter_cons]
    by_cases h : iota a = i <;> simp [h]

theorem getD_redistribute (iota : α → Nat) (n : Nat) (l : List α) (i : Nat)
    (hb : ∀ a ∈ l, iota a < n) :
    (redistribute iota n l).getD i [] = l.filter (fun a => decide (iota a = i)) := by
  rw [redistribute,
    getD_foldl_placeAux iota l _ i (by simpa using hb), getD_replicate_nil]
  rfl

theorem flatten_decompose {bs : List (List α)} {i : Nat} (h : i < bs.length) :
    bs.flatten = (bs.take i).flatten ++ bs.getD i [] ++ (bs.drop (i + 1)).flatten := by
  conv_lhs => rw [← List.take_append_drop i bs]
  rw [List.flatten_append, List.drop_eq_getElem_cons h, List.flatten_cons]
  simp [List.getD_eq_getElem?_getD, List.getElem?_eq_getElem h, List.append_assoc]

theorem flatten_set {bs : List (List α)} {i : Nat} (b : List α) (h : i < bs.length) :
    (bs.set i b).flatten = (bs.take i).flatten ++ b ++ (bs.drop (i + 1)).flatten := by
  rw [List.set_eq_take_append_cons_drop]
  simp [h, List.append_assoc]

theorem flatten_placeAux_perm (iota : α → Nat) (bs : List (List α)) (a : α)
    (h : iota a < bs.length) :
    ((placeAux iota bs a).flatten).Perm (a :: bs.flatten) := by
  unfold placeAux
  rw [flatten_set _ h, flatten_decompose h]
  have hm := @List.perm_middle _ a
    ((bs.take (iota a)).flatten ++ bs.getD (iota a) [])
    ((bs.drop (iota a + 1)).flatten)
  simpa [List.append_assoc] using hm

theorem flatten_foldl_placeAux_perm (iota : α → Nat) (l : List α) (bs : List (List α))
    (h : ∀ a ∈ l, iota a < bs.length) :
    ((l.foldl (placeAux iota) bs).flatten).Perm (bs.flatten ++ l) := by
  induction l generalizing bs with
  | nil => simp
  | cons a l ih =>
    rw [List.foldl_cons]
    refine (ih (placeAux iota bs a)
      (fun x hx => by rw [length_placeAux]; exact h x (List.mem_cons_of_mem _ hx))).trans ?_
    refine ((flatten_placeAux_perm iota bs a (h a (List.mem_cons_self _ _))).append_right l).trans ?_
    exact List.perm_middle.symm

theorem flatten_redistribute_perm (iota : α → Nat) (n : Nat) (l : List α)
    (h : ∀ a ∈ l, iota a < n) :
    ((redistribute iota n l).flatten).Perm l := by
  rw [redistribute]
  have hp := flatten_foldl_placeAux_perm iota l (List.replicate n []) (by simpa using h)
  simpa using hp

theorem find?_filter_of_imp (p q : α → Bool) (l : List α)
    (h : ∀ a, p a = true → q a = true) :
    (l.filter q).find? p = l.find? p := by
  induction l with
  | nil => rfl
  | cons a l ih =>
    by_cases hq : q a = true
    · rw [List.filter_cons_of_pos hq]
      by_cases hp : p a = true
      · rw [List.find?_cons_of_pos _ hp, List.find?_cons_of_pos _ hp]
      · rw [List.find?_cons_of_neg _ (by simpa using hp),
          List.find?_cons_of_neg _ (by simpa using hp), ih]
    · have hp : ¬ p a = true := fun hpa => hq (h a hpa)
      rw [List.filter_cons_of_neg (by simpa using hq),
        List.find?_cons_of_neg _ (by simpa using hp), ih]

theorem find?_flatten_placed (p : α → Bool) (iota : α → Nat) (bs : List (List α)) (i0 : Nat)
    (h0 : i0 < bs.length)
    (hpl : ∀ i < bs.length, ∀ a ∈ bs.getD i [], iota a = i)
    (hp : ∀ a, p a = true → iota a = i0) :
    bs.flatten.find? p = (bs.getD i0 []).find? p := by
  rw [flatten_decompose h0, List.find?_append, List.find?_append]
  have h1 : (bs.take i0).flatten.find? p = none := by
    rw [List.find?_eq_none]
    intro x hx hpx
    rcases List.mem_flatten.1 hx with ⟨b, hb, hxb⟩
    rcases List.mem_iff_getElem.1 hb with ⟨j, hj, hbj⟩
    have hj0 : j < i0 := lt_of_lt_of_le hj (by simp [List.length_take])
    have hjb : j < bs.length := lt_trans hj0 h0
    have hgb : bs.getD j [] = b := by
      rw [List.getD_eq_getElem?_getD, List.getElem?_eq_getElem hjb, Option.getD_some,
        ← hbj, List.getElem_take]
    have := hpl j hjb x (by rw [hgb]; exact hxb)
    rw [hp x hpx] at this
    exact absurd this.symm (Nat.ne_of_lt hj0)
  have h2 : (bs.drop (i0 + 1)).flatten.find? p = none := by
    rw [List.find?_eq_none]
    intro x hx hpx
    rcases List.mem_flatten.1 hx with ⟨b, hb, hxb⟩
    rcases List.mem_iff_getElem.1 hb with ⟨j, hj, hbj⟩
    have hjb : i0 + 1 + j < bs.length := by
      have := hj
      rw [List.length_drop] at this
      omega
    have hgb : bs.getD (i0 + 1 + j) [] = b := by
      rw [List.getD_eq_getElem?_getD, List.getElem?_eq_getElem hjb, Option.getD_some,
        ← hbj, List.getElem_drop]
    have := hpl (i0 + 1 + j) hjb x (by rw [hgb]; exact hxb)
    rw [hp x hpx] at this
    omega
  rw [h1, h2, Option.none_or, Option.or_none]

theorem find?_append_singleton_ne (p : α → Bool) (b : List α) (x : α) (hx : p x = false) :
    (b ++ [x]).find? p = b.find? p := by
  rw [List.find?_append]
  cases hb : b.find? p with
  | some y => rfl
  | none => simp [List.find?_cons, hx]

theorem find?_append_singleton_isSome (p : α → Bool) (b : List α) (x : α)
    (hx : p x = true) : ((b ++ [x]).find? p).isSome = true := by
  rw [List.find?_append]
  cases hb : b.find? p with
  | some y => rfl
  | none => simp [List.find?_cons, hx]

end BucketLemmas

/-! ### Lemmas about `UnorderedMap` -/

namespace UnorderedMap

variable {K V : Type} [DecidableEq K]

theorem bucket_count_rehash (hash : K → Nat) (t : UnorderedMap K V) (n : Nat) :
    (t.rehash hash n).bucket_count_ = n := rfl

theorem size_rehash (hash : K → Nat) (t : UnorderedMap K V) (n : Nat) :
    (t.rehash hash n).size_ = t.size_ := rfl

theorem mlf_rehash (hash : K → Nat) (t : UnorderedMap K V) (n : Nat) :
    (t.rehash hash n).max_load_factor_ = t.max_load_factor_ := rfl

theorem entries_rehash_perm (hash : K → Nat) (t : UnorderedMap K V) {n : Nat}
    (hn : 0 < n) : ((t.rehash hash n).entries).Perm t.entries := by
  exact flatten_redistribute_perm _ n t.entries
    (fun a _ => Nat.mod_lt _ hn)

theorem getD_rehash (hash : K → Nat) (t : UnorderedMap K V) {n : Nat} (hn : 0 < n)
    (i : Nat) :
    (t.rehash hash n).buckets.getD i [] =
      t.entries.filter (fun pair => decide (hash pair.1 % n = i)) := by
  exact getD_redistribute _ n t.entries i (fun a _ => Nat.mod_lt _ hn)

theorem find_in_bucket_rehash (hash : K → Nat) (t : UnorderedMap K V) {n : Nat}
    (hn : 0 < n) (k : K) :
    (t.rehash hash n).find_in_bucket k ((t.rehash hash n).hashIndex hash k) =
      t.entries.find? (fun pair => decide (pair.1 = k)) := by
  rw [find_in_bucket, hashIndex, bucket_count_rehash, getD_rehash hash t hn]
  exact find?_filter_of_imp _ _ _ (by
    intro a ha
    have : a.1 = k := of_decide_eq_true ha
    simp [this])

theorem find_in_bucket_eq_entries (hash : K → Nat) (t : UnorderedMap K V)
    (hWF : t.WF hash) (k : K) :
    t.find_in_bucket k (t.hashIndex hash k) =
      t.entries.find? (fun pair => decide (pair.1 = k)) := by
  obtain ⟨hlen, hpos, -, -, hpl⟩ := hWF
  unfold find_in_bucket entries
  refine (find?_flatten_placed _ (fun pair => hash pair.1 % t.bucket_count_)
    t.buckets (t.hashIndex hash k) ?_ ?_ ?_).symm
  · rw [hlen]; exact Nat.mod_lt _ hpos
  · intro i hi a ha
    exact hpl i hi a ha
  · intro a ha
    have hak : a.1 = k := of_decide_eq_true ha
    show hash a.1 % t.bucket_count_ = hash k % t.bucket_count_
    rw [hak]

theorem WF_make {bc : Nat} (hash : K → Nat) (hbc : 0 < bc) :
    (make bc : UnorderedMap K V).WF hash := by
  refine ⟨by simp [make], by simpa [make] using hbc, by simp [make, entries], ?_, ?_⟩
  · simp [make, entries]
  · intro i hi p hp
    rw [make] at hp
    simp only at hp
    rw [getD_replicate_nil] at hp
    cases hp

theorem WF_rehash (hash : K → Nat) {t : UnorderedMap K V} (hWF : t.WF hash) {n : Nat}
    (hn : 0 < n) : (t.rehash hash n).WF hash := by
  obtain ⟨hlen, hpos, hsz, hnd, hpl⟩ := hWF
  have hperm := entries_rehash_perm hash t hn
  refine ⟨?_, hn, ?_, ?_, ?_⟩
  · rw [rehash]
    exact length_redistribute _ n _
  · rw [size_rehash, hsz]
    exact (hperm.length_eq).symm
  · exact ((hperm.map Prod.fst).nodup_iff).2 hnd
  · intro i hi p hp
    rw [show (t.rehash hash n).buckets.getD i [] =
        t.entries.filter (fun pair => decide (hash pair.1 % n = i)) from
        getD_rehash hash t hn i] at hp
    have := List.of_mem_filter hp
    rw [bucket_count_rehash]
    exact of_decide_eq_true this

theorem entries_emplaceAt_perm (hash : K → Nat) (t : UnorderedMap K V) (k : K) (v : V)
    (hlen : t.buckets.length = t.bucket_count_) (hpos : 0 < t.bucket_count_) :
    ((t.emplaceAt (t.hashIndex hash k) k v).entries).Perm ((k, v) :: t.entries) := by
  have hb : (t.emplaceAt (t.hashIndex hash k) k v).buckets
      = placeAux (fun p => hash p.1 % t.bucket_count_) t.buckets (k, v) := rfl
  unfold entries
  rw [hb]
  refine flatten_placeAux_perm _ _ _ ?_
  show hash k % t.bucket_count_ < t.buckets.length
  rw [hlen]
  exact Nat.mod_lt _ hpos

theorem key_not_mem_of_find_none (hash : K → Nat) (t : UnorderedMap K V)
    (hWF : t.WF hash) (k : K)
    (hnone : t.find_in_bucket k (t.hashIndex hash k) = none) :
    ∀ p ∈ t.entries, p.1 ≠ k := by
  rw [find_in_bucket_eq_entries hash t hWF k, List.find?_eq_none] at hnone
  intro p hp hk
  exact hnone p hp (by simp [hk])

theorem WF_emplaceAt (hash : K → Nat) {t : UnorderedMap K V} (hWF : t.WF hash) {k : K}
    (v : V) (hnone : t.find_in_bucket k (t.hashIndex hash k) = none) :
    (t.emplaceAt (t.hashIndex hash k) k v).WF hash := by
  have hfresh := key_not_mem_of_find_none hash t hWF k hnone
  obtain ⟨hlen, hpos, hsz, hnd, hpl⟩ := hWF
  have hperm := entries_emplaceAt_perm hash t k v hlen hpos
  have hi0 : t.hashIndex hash k < t.buckets.length := by
    rw [hashIndex, hlen]
    exact Nat.mod_lt _ hpos
  refine ⟨by simpa [emplaceAt] using hlen, hpos, ?_, ?_, ?_⟩
  · rw [hperm.length_eq]
    simp [emplaceAt, hsz]
  · refine ((hperm.map Prod.fst).nodup_iff).2 ?_
    simp only [List.map_cons]
    refine List.nodup_cons.2 ⟨?_, hnd⟩
    intro hmem
    rcases List.mem_map.1 hmem with ⟨p, hp, hpk⟩
    exact hfresh p hp hpk
  · intro i hi p hp
    have hbc : (t.emplaceAt (t.hashIndex hash k) k v).bucket_count_ = t.bucket_count_ := rfl
    rw [hbc]
    by_cases h : t.hashIndex hash k = i
    · subst h
      rw [show (t.emplaceAt (t.hashIndex hash k) k v).buckets
          = t.buckets.set (t.hashIndex hash k)
              (t.buckets.getD (t.hashIndex hash k) [] ++ [(k, v)]) from rfl,
        getD_set_self hi0] at hp
      rcases List.mem_append.1 hp with h1 | h1
      · exact hpl _ hi0 p h1
      · rcases List.mem_singleton.1 h1 with rfl
        rfl
    · rw [show (t.emplaceAt (t.hashIndex hash k) k v).buckets
          = t.buckets.set (t.hashIndex hash k)
              (t.buckets.getD (t.hashIndex hash k) [] ++ [(k, v)]) from rfl,
        getD_set_ne h] at hp
      have hlen2 : (t.emplaceAt (t.hashIndex hash k) k v).buckets.length
          = t.buckets.length := by
        simp [emplaceAt]
      exact hpl i (by omega) p hp

theorem WF_growIfNeeded (hash : K → Nat) {t : UnorderedMap K V} (hWF : t.WF hash) :
    (t.growIfNeeded hash).WF hash := by
  unfold growIfNeeded
  split
  · exact WF_rehash hash hWF (by have := hWF.2.1; omega)
  · exact hWF

theorem entries_growIfNeeded_perm (hash : K → Nat) {t : UnorderedMap K V}
    (hpos : 0 < t.bucket_count_) :
    ((t.growIfNeeded hash).entries).Perm t.entries := by
  unfold growIfNeeded
  split
  · exact entries_rehash_perm hash t (by omega)
  · exact List.Perm.refl _

theorem insert_eq_of_none (hash : K → Nat) (t : UnorderedMap K V) (k : K) (v : V)
    (hnone : t.find_in_bucket k (t.hashIndex hash k) = none) :
    t.insert hash k v = ((t.emplaceAt (t.hashIndex hash k) k v).growIfNeeded hash, true) := by
  simp only [insert, hnone]

theorem insert_eq_of_some (hash : K → Nat) (t : UnorderedMap K V) (k : K) (v : V)
    (p : K × V) (hsome : t.find_in_bucket k (t.hashIndex hash k) = some p) :
    t.insert hash k v = (t, false) := by
  simp only [insert, hsome]

theorem WF_insert (hash : K → Nat) {t : UnorderedMap K V} (hWF : t.WF hash) (k : K)
    (v : V) : (t.insert hash k v).1.WF hash := by
  cases hfb : t.find_in_bucket k (t.hashIndex hash k) with
  | some p =>
    rw [insert_eq_of_some hash t k v p hfb]
    exact hWF
  | none =>
    rw [insert_eq_of_none hash t k v hfb]
    exact WF_growIfNeeded hash (WF_emplaceAt hash hWF v hfb)

theorem map_fst_assignInBucket (k : K) (v : V) (b : List (K × V)) :
    (assignInBucket k v b).map Prod.fst = b.map Prod.fst := by
  induction b with
  | nil => rfl
  | cons p rest ih =>
    by_cases h : p.1 = k <;> simp [assignInBucket, h, ih]

theorem length_assignInBucket (k : K) (v : V) (b : List (K × V)) :
    (assignInBucket k v b).length = b.length := by
  rw [← List.length_map (assignInBucket k v b) Prod.fst, map_fst_assignInBucket,
    List.length_map]

theorem find?_assignInBucket {k : K} (v : V) {b : List (K × V)} {p : K × V}
    (hf : b.find? (fun q => decide (q.1 = k)) = some p) :
    (assignInBucket k v b).find? (fun q => decide (q.1 = k)) = some (p.1, v) := by
  induction b with
  | nil => cases hf
  | cons q rest ih =>
    by_cases h : q.1 = k
    · rw [List.find?_cons_of_pos _ (by simp [h])] at hf
      cases hf
      rw [assignInBucket, if_pos h, List.find?_cons_of_pos _ (by simp [h])]
    · rw [List.find?_cons_of_neg _ (by simp [h])] at hf
      rw [assignInBucket, if_neg h, List.find?_cons_of_neg _ (by simp [h])]
      exact ih hf

theorem mem_fst_assignInBucket {k : K} {v : V} {b : List (K × V)} {q : K × V}
    (hq : q ∈ assignInBucket k v b) : q.1 ∈ b.map Prod.fst := by
  have := List.mem_map_of_mem Prod.fst hq
  rwa [map_fst_assignInBucket] at this

theorem WF_parts (hash : K → Nat) {bs : List (List (K × V))} {sz bc : Nat} {m : ℚ}
    (h1 : bs.length = bc) (h2 : 0 < bc) (h3 : sz = bs.flatten.length)
    (h4 : (bs.flatten.map Prod.fst).Nodup)
    (h5 : ∀ i < bs.length, ∀ p ∈ bs.getD i [], hash p.1 % bc = i) :
    WF hash (UnorderedMap.mk bs sz bc m) :=
  ⟨h1, h2, h3, h4, h5⟩

theorem ioa_eq_of_some (hash : K → Nat) (t : UnorderedMap K V) (k : K) (v : V)
    (p : K × V) (hsome : t.find_in_bucket k (t.hashIndex hash k) = some p) :
    t.insert_or_assign hash k v =
      { t with
          buckets := t.buckets.set (t.hashIndex hash k)
              (assignInBucket k v (t.buckets.getD (t.hashIndex hash k) [])) } := by
  simp only [insert_or_assign, hsome]

theorem ioa_eq_of_none (hash : K → Nat) (t : UnorderedMap K V) (k : K) (v : V)
    (hnone : t.find_in_bucket k (t.hashIndex hash k) = none) :
    t.insert_or_assign hash k v = (t.emplaceAt (t.hashIndex hash k) k v).growIfNeeded hash := by
  simp only [insert_or_assign, hnone]

theorem access_eq_of_some (hash : K → Nat) (vdef : V) (t : UnorderedMap K V) (k : K)
    (p : K × V) (hsome : t.find_in_bucket k (t.hashIndex hash k) = some p) :
    t.access hash vdef k = (p.2, t) := by
  simp only [access, hsome]

theorem access_eq_of_none (hash : K → Nat) (vdef : V) (t : UnorderedMap K V) (k : K)
    (hnone : t.find_in_bucket k (t.hashIndex hash k) = none) :
    t.access hash vdef k =
      (vdef, (t.emplaceAt (t.hashIndex hash k) k vdef).growIfNeeded hash) := by
  simp only [access, hnone]

theorem erase_eq_of_some (hash : K → Nat) (t : UnorderedMap K V) (k : K)
    (p : K × V) (hsome : t.find_in_bucket k (t.hashIndex hash k) = some p) :
    t.erase hash k =
      ({ t with
          buckets := t.buckets.set (t.hashIndex hash k)
              ((t.buckets.getD (t.hashIndex hash k) []).eraseP (fun q => decide (q.1 = k))),
          size_ := t.size_ - 1 }, true) := by
  simp only [erase, hsome]

theorem erase_eq_of_none (hash : K → Nat) (t : UnorderedMap K V) (k : K)
    (hnone : t.find_in_bucket k (t.hashIndex hash k) = none) :
    t.erase hash k = (t, false) := by
  simp only [erase, hnone]

theorem WF_insert_or_assign (hash : K → Nat) {t : UnorderedMap K V} (hWF : t.WF hash)
    (k : K) (v : V) : (t.insert_or_assign hash k v).WF hash := by
  cases hfb : t.find_in_bucket k (t.hashIndex hash k) with
  | none =>
    rw [ioa_eq_of_none hash t k v hfb]
    exact WF_growIfNeeded hash (WF_emplaceAt hash hWF v hfb)
  | some p =>
    rw [ioa_eq_of_some hash t k v p hfb]
    obtain ⟨hlen, hpos, hsz, hnd, hpl⟩ := hWF
    have hi0 : t.hashIndex hash k < t.buckets.length := by
      rw [hashIndex, hlen]
      exact Nat.mod_lt _ hpos
    have hset : (t.buckets.set (t.hashIndex hash k)
        (assignInBucket k v (t.buckets.getD (t.hashIndex hash k) []))).flatten
        = (t.buckets.take (t.hashIndex hash k)).flatten
          ++ assignInBucket k v (t.buckets.getD (t.hashIndex hash k) [])
          ++ (t.buckets.drop (t.hashIndex hash k + 1)).flatten :=
      flatten_set _ hi0
    have hdec := flatten_decompose hi0
    rw [entries, hdec] at hsz hnd
    refine WF_parts hash (by simpa using hlen) hpos ?_ ?_ ?_
    · rw [hset]
      simp only [List.length_append, length_assignInBucket] at hsz ⊢
      omega
    · rw [hset]
      simpa only [List.map_append, map_fst_assignInBucket] using hnd
    · intro i hi q hq
      by_cases h : t.hashIndex hash k = i
      · subst h
        rw [getD_set_self hi0] at hq
        rcases List.mem_map.1 (mem_fst_assignInBucket hq) with ⟨p2, hp2, hpq⟩
        rw [← hpq]
        exact hpl _ hi0 p2 hp2
      · rw [getD_set_ne h] at hq
        rw [List.length_set] at hi
        exact hpl i hi q hq

theorem WF_access (hash : K → Nat) (vdef : V) {t : UnorderedMap K V} (hWF : t.WF hash)
    (k : K) : (t.access hash vdef k).2.WF hash := by
  cases hfb : t.find_in_bucket k (t.hashIndex hash k) with
  | some p =>
    rw [access_eq_of_some hash vdef t k p hfb]
    exact hWF
  | none =>
    rw [access_eq_of_none hash vdef t k hfb]
    exact WF_growIfNeeded hash (WF_emplaceAt hash hWF vdef hfb)

theorem WF_erase (hash : K → Nat) {t : UnorderedMap K V} (hWF : t.WF hash) (k : K) :
    (t.erase hash k).1.WF hash := by
  cases hfb : t.find_in_bucket k (t.hashIndex hash k) with
  | none =>
    rw [erase_eq_of_none hash t k hfb]
    exact hWF
  | some p =>
    rw [erase_eq_of_some hash t k p hfb]
    obtain ⟨hlen, hpos, hsz, hnd, hpl⟩ := hWF
    have hi0 : t.hashIndex hash k < t.buckets.length := by
      rw [hashIndex, hlen]
      exact Nat.mod_lt _ hpos
    have hfb2 : (t.buckets.getD (t.hashIndex hash k) []).find?
        (fun q => decide (q.1 = k)) = some p := hfb
    have hpmem : p ∈ t.buckets.getD (t.hashIndex hash k) [] :=
      List.mem_of_find?_eq_some hfb2
    have hppred : decide (p.1 = k) = true := by
      have h3 := List.find?_some hfb2
      simpa using h3
    have hlene : ((t.buckets.getD (t.hashIndex hash k) []).eraseP
        (fun q => decide (q.1 = k))).length
        = (t.buckets.getD (t.hashIndex hash k) []).length - 1 :=
      List.length_eraseP_of_mem hpmem hppred
    have hbne : 0 < (t.buckets.getD (t.hashIndex hash k) []).length :=
      List.length_pos_of_mem hpmem
    have hsub : List.Sublist ((t.buckets.getD (t.hashIndex hash k) []).eraseP
        (fun q => decide (q.1 = k))) (t.buckets.getD (t.hashIndex hash k) []) :=
      List.eraseP_sublist _
    have hset : (t.buckets.set (t.hashIndex hash k)
        ((t.buckets.getD (t.hashIndex hash k) []).eraseP
          (fun q => decide (q.1 = k)))).flatten
        = (t.buckets.take (t.hashIndex hash k)).flatten
          ++ (t.buckets.getD (t.hashIndex hash k) []).eraseP (fun q => decide (q.1 = k))
          ++ (t.buckets.drop (t.hashIndex hash k + 1)).flatten :=
      flatten_set _ hi0
    have hdec := flatten_decompose hi0
    rw [entries, hdec] at hsz hnd
    refine WF_parts hash (by simpa using hlen) hpos ?_ ?_ ?_
    · rw [hset]
      simp only [List.length_append] at hsz ⊢
      omega
    · rw [hset]
      refine List.Nodup.sublist ?_ hnd
      exact (((List.Sublist.refl _).append hsub).append (List.Sublist.refl _)).map _
    · intro i hi q hq
      by_cases h : t.hashIndex hash k = i
      · subst h
        rw [getD_set_self hi0] at hq
        exact hpl _ hi0 q (List.mem_of_mem_eraseP hq)
      · rw [getD_set_ne h] at hq
        rw [List.length_set] at hi
        exact hpl i hi q hq

theorem WF_clear (hash : K → Nat) {t : UnorderedMap K V} (hWF : t.WF hash) :
    t.clear.WF hash := by
  obtain ⟨hlen, hpos, hsz, hnd, hpl⟩ := hWF
  have hent : (t.buckets.map (fun _ => ([] : List (K × V)))).flatten = [] := by
    rw [List.flatten_eq_nil_iff]
    intro l hl
    rcases List.mem_map.1 hl with ⟨b, hb, hbl⟩
    exact hbl.symm
  refine WF_parts hash (by simpa using hlen) hpos (by rw [hent]; rfl) (by rw [hent]; simp) ?_
  intro i hi q hq
  exfalso
  rw [List.getD_eq_getElem?_getD, List.getElem?_map] at hq
  cases hb : t.buckets[i]? with
  | none => rw [hb] at hq; cases hq
  | some b => rw [hb] at hq; cases hq

theorem find?_append_mid_single {α : Type} (p : α → Bool) (A b C : List α) (x : α)
    (hx : p x = false) :
    (A ++ (b ++ [x]) ++ C).find? p = (A ++ b ++ C).find? p := by
  simp only [List.find?_append, find?_append_singleton_ne p b x hx]

theorem find?_key_of_mem {l : List (K × V)} {k : K} {v : V}
    (nd : (l.map Prod.fst).Nodup) (hm : (k, v) ∈ l) :
    l.find? (fun pair => decide (pair.1 = k)) = some (k, v) := by
  induction l with
  | nil => cases hm
  | cons p rest ih =>
    rcases List.mem_cons.1 hm with h | h
    · rw [← h]
      exact List.find?_cons_of_pos _ (by simp)
    · have hpk : ¬ (p.1 = k) := by
        intro he
        rw [List.map_cons, List.nodup_cons] at nd
        apply nd.1
        rw [he]
        exact List.mem_map_of_mem Prod.fst h
      rw [List.find?_cons_of_neg _ (by simpa using hpk)]
      rw [List.map_cons, List.nodup_cons] at nd
      exact ih nd.2 h

theorem find_value_of_mem (hash : K → Nat) {t : UnorderedMap K V} (hWF : t.WF hash)
    {k : K} {v : V} (hm : (k, v) ∈ t.entries) : t.find_value hash k = some v := by
  rw [find_value, find_in_bucket_eq_entries hash t hWF k,
    find?_key_of_mem hWF.2.2.2.1 hm]
  rfl

theorem find_value_growIfNeeded (hash : K → Nat) {t : UnorderedMap K V}
    (hWF : t.WF hash) (k0 : K) :
    (t.growIfNeeded hash).find_value hash k0
      = (t.entries.find? (fun q => decide (q.1 = k0))).map Prod.snd := by
  unfold growIfNeeded
  split
  · rw [find_value, find_in_bucket_rehash hash t (by have := hWF.2.1; omega) k0]
  · rw [find_value, find_in_bucket_eq_entries hash t hWF k0]

theorem entries_emplaceAt_eq (hash : K → Nat) (t : UnorderedMap K V) (k : K) (v : V)
    (hi0 : t.hashIndex hash k < t.buckets.length) :
    (t.emplaceAt (t.hashIndex hash k) k v).entries
      = (t.buckets.take (t.hashIndex hash k)).flatten
        ++ (t.buckets.getD (t.hashIndex hash k) [] ++ [(k, v)])
        ++ (t.buckets.drop (t.hashIndex hash k + 1)).flatten := by
  unfold entries
  exact flatten_set _ hi0

theorem find?_entries_emplace (hash : K → Nat) {t : UnorderedMap K V}
    (hlen : t.buckets.length = t.bucket_count_) (hpos : 0 < t.bucket_count_)
    {k k0 : K} (v : V) (hne : k ≠ k0) :
    (t.emplaceAt (t.hashIndex hash k) k v).entries.find? (fun q => decide (q.1 = k0))
      = t.entries.find? (fun q => decide (q.1 = k0)) := by
  have hi0 : t.hashIndex hash k < t.buckets.length := by
    rw [hashIndex, hlen]
    exact Nat.mod_lt _ hpos
  rw [entries_emplaceAt_eq hash t k v hi0,
    show t.entries = t.buckets.flatten from rfl, flatten_decompose hi0]
  exact find?_append_mid_single _ _ _ _ _ (by simpa using hne)

theorem find_value_after_insert (hash : K → Nat) {t : UnorderedMap K V} (hWF : t.WF hash)
    {k : K} (v : V) (hnone : t.find_in_bucket k (t.hashIndex hash k) = none)
    {k0 : K} {v0 : V} (hfv : t.find_value hash k0 = some v0) :
    ((t.emplaceAt (t.hashIndex hash k) k v).growIfNeeded hash).find_value hash k0
      = some v0 := by
  have hne : k ≠ k0 := by
    intro he
    subst he
    rw [find_value, hnone] at hfv
    cases hfv
  have hWFe := WF_emplaceAt hash hWF v hnone
  rw [find_value_growIfNeeded hash hWFe k0,
    find?_entries_emplace hash hWF.1 hWF.2.1 v hne]
  rw [find_value, find_in_bucket_eq_entries hash t hWF k0] at hfv
  exact hfv

theorem mem_entries_emplaceAt (hash : K → Nat) (t : UnorderedMap K V) (k : K) (v : V)
    (hi0 : t.hashIndex hash k < t.buckets.length) :
    (k, v) ∈ (t.emplaceAt (t.hashIndex hash k) k v).entries := by
  rw [entries_emplaceAt_eq hash t k v hi0]
  simp

theorem contains_after_insert (hash : K → Nat) {t : UnorderedMap K V}
    (hlen : t.buckets.length = t.bucket_count_) (hpos : 0 < t.bucket_count_)
    (k : K) (v : V) : (t.insert hash k v).1.contains hash k = true := by
  cases hfb : t.find_in_bucket k (t.hashIndex hash k) with
  | some p =>
    rw [insert_eq_of_some hash t k v p hfb]
    rw [contains, hfb]
    rfl
  | none =>
    rw [insert_eq_of_none hash t k v hfb]
    have hi0 : t.hashIndex hash k < t.buckets.length := by
      rw [hashIndex, hlen]
      exact Nat.mod_lt _ hpos
    have hmem := mem_entries_emplaceAt hash t k v hi0
    show ((t.emplaceAt (t.hashIndex hash k) k v).growIfNeeded hash).contains hash k = true
    unfold growIfNeeded
    split
    · rw [contains, find_in_bucket_rehash hash _ (by
        show 0 < (t.emplaceAt (t.hashIndex hash k) k v).bucket_count_ * 2
        show 0 < t.bucket_count_ * 2
        omega) k]
      exact List.find?_isSome.2 ⟨(k, v), hmem, by simp⟩
    · rw [contains,
        show (t.emplaceAt (t.hashIndex hash k) k v).find_in_bucket k
            ((t.emplaceAt (t.hashIndex hash k) k v).hashIndex hash k)
          = ((t.buckets.set (t.hashIndex hash k)
              (t.buckets.getD (t.hashIndex hash k) [] ++ [(k, v)])).getD
              (t.hashIndex hash k) []).find? (fun q => decide (q.1 = k)) from rfl,
        getD_set_self hi0]
      exact find?_append_singleton_isSome _ _ _ (by simp)

theorem insert_ret_iff_not_contains (hash : K → Nat) (t : UnorderedMap K V) (k : K)
    (v : V) : (t.insert hash k v).2 = true ↔ t.contains hash k = false := by
  cases hfb : t.find_in_bucket k (t.hashIndex hash k) with
  | some p =>
    rw [insert_eq_of_some hash t k v p hfb, contains, hfb]
    simp
  | none =>
    rw [insert_eq_of_none hash t k v hfb, contains, hfb]
    simp

theorem load_factor_growIfNeeded (hash : K → Nat) {t : UnorderedMap K V}
    (hpos : 0 < t.bucket_count_)
    (hle : (t.size_ : ℚ) ≤ (t.bucket_count_ : ℚ) * t.max_load_factor_ + 1)
    (hprod : 1 ≤ (t.bucket_count_ : ℚ) * t.max_load_factor_) :
    (t.growIfNeeded hash).load_factor ≤ (t.growIfNeeded hash).max_load_factor_ := by
  have hbc : (0 : ℚ) < (t.bucket_count_ : ℚ) := by exact_mod_cast hpos
  unfold growIfNeeded
  split
  · show ((t.rehash hash (t.bucket_count_ * 2)).size_ : ℚ)
        / ((t.rehash hash (t.bucket_count_ * 2)).bucket_count_ : ℚ)
        ≤ (t.rehash hash (t.bucket_count_ * 2)).max_load_factor_
    rw [size_rehash, bucket_count_rehash, mlf_rehash]
    rw [div_le_iff₀ (by push_cast; positivity)]
    push_cast
    nlinarith
  · next h =>
      show ((t.size_ : ℚ)) / ((t.bucket_count_ : ℚ)) ≤ t.max_load_factor_
      rw [div_le_iff₀ hbc]
      have h2 : ¬ ((t.size_ : ℚ) > (t.bucket_count_ : ℚ) * t.max_load_factor_) := h
      nlinarith [not_lt.1 h2]

end UnorderedMap

/-! ### Lemmas about `UnorderedSet` -/

namespace UnorderedSet

variable {T : Type} [DecidableEq T]

theorem bucket_count_rehash_set (hash : T → Nat) (s : UnorderedSet T) (n : Nat) :
    (s.rehash hash n).bucket_count_ = n := rfl

theorem size_rehash_set (hash : T → Nat) (s : UnorderedSet T) (n : Nat) :
    (s.rehash hash n).size_ = s.size_ := rfl

theorem mlf_rehash_set (hash : T → Nat) (s : UnorderedSet T) (n : Nat) :
    (s.rehash hash n).max_load_factor_ = s.max_load_factor_ := rfl

theorem entries_rehash_perm_set (hash : T → Nat) (s : UnorderedSet T) {n : Nat}
    (hn : 0 < n) : ((s.rehash hash n).entries).Perm s.entries :=
  flatten_redistribute_perm _ n s.entries (fun a _ => Nat.mod_lt _ hn)

theorem getD_rehash_set (hash : T → Nat) (s : UnorderedSet T) {n : Nat} (hn : 0 < n)
    (i : Nat) :
    (s.rehash hash n).buckets.getD i [] =
      s.entries.filter (fun x => decide (hash x % n = i)) :=
  getD_redistribute _ n s.entries i (fun a _ => Nat.mod_lt _ hn)

theorem find_in_bucket_rehash_set (hash : T → Nat) (s : UnorderedSet T) {n : Nat}
    (hn : 0 < n) (k : T) :
    (s.rehash hash n).find_in_bucket k ((s.rehash hash n).hashIndex hash k) =
      s.entries.find? (fun x => decide (x = k)) := by
  rw [find_in_bucket, hashIndex, bucket_count_rehash_set, getD_rehash_set hash s hn]
  exact find?_filter_of_imp _ _ _ (by
    intro a ha
    have : a = k := of_decide_eq_true ha
    simp [this])

theorem find_in_bucket_eq_entries_set (hash : T → Nat) (s : UnorderedSet T)
    (hWF : s.WF hash) (k : T) :
    s.find_in_bucket k (s.hashIndex hash k) =
      s.entries.find? (fun x => decide (x = k)) := by
  obtain ⟨hlen, hpos, -, -, hpl⟩ := hWF
  unfold find_in_bucket entries
  refine (find?_flatten_placed _ (fun x => hash x % s.bucket_count_)
    s.buckets (s.hashIndex hash k) ?_ ?_ ?_).symm
  · rw [hlen]
    exact Nat.mod_lt _ hpos
  · intro i hi a ha
    exact hpl i hi a ha
  · intro a ha
    have hak : a = k := of_decide_eq_true ha
    show hash a % s.bucket_count_ = hash k % s.bucket_count_
    rw [hak]

theorem WF_make_set {bc : Nat} (hash : T → Nat) (hbc : 0 < bc) :
    (make bc : UnorderedSet T).WF hash := by
  refine ⟨by simp [make], by simpa [make] using hbc, by simp [make, entries], ?_, ?_⟩
  · simp [make, entries]
  · intro i hi x hx
    rw [make] at hx
    simp only at hx
    rw [getD_replicate_nil] at hx
    cases hx

theorem WF_parts_set (hash : T → Nat) {bs : List (List T)} {sz bc : Nat} {m : ℚ}
    (h1 : bs.length = bc) (h2 : 0 < bc) (h3 : sz = bs.flatten.length)
    (h4 : bs.flatten.Nodup)
    (h5 : ∀ i < bs.length, ∀ x ∈ bs.getD i [], hash x % bc = i) :
    WF hash (UnorderedSet.mk bs sz bc m) :=
  ⟨h1, h2, h3, h4, h5⟩

theorem WF_rehash_set (hash : T → Nat) {s : UnorderedSet T} (hWF : s.WF hash) {n : Nat}
    (hn : 0 < n) : (s.rehash hash n).WF hash := by
  obtain ⟨hlen, hpos, hsz, hnd, hpl⟩ := hWF
  have hperm := entries_rehash_perm_set hash s hn
  refine ⟨?_, hn, ?_, ?_, ?_⟩
  · rw [rehash]
    exact length_redistribute _ n _
  · rw [size_rehash_set, hsz]
    exact (hperm.length_eq).symm
  · exact (hperm.nodup_iff).2 hnd
  · intro i hi x hx
    rw [show (s.rehash hash n).buckets.getD i [] =
        s.entries.filter (fun y => decide (hash y % n = i)) from
        getD_rehash_set hash s hn i] at hx
    have := List.of_mem_filter hx
    rw [bucket_count_rehash_set]
    exact of_decide_eq_true this

theorem entries_emplaceAt_perm_set (hash : T → Nat) (s : UnorderedSet T) (k : T)
    (hlen : s.buckets.length = s.bucket_count_) (hpos : 0 < s.bucket_count_) :
    ((s.emplaceAt (s.hashIndex hash k) k).entries).Perm (k :: s.entries) := by
  have hb : (s.emplaceAt (s.hashIndex hash k) k).buckets
      = placeAux (fun x => hash x % s.bucket_count_) s.buckets k := rfl
  unfold entries
  rw [hb]
  refine flatten_placeAux_perm _ _ _ ?_
  show hash k % s.bucket_count_ < s.buckets.length
  rw [hlen]
  exact Nat.mod_lt _ hpos

theorem key_not_mem_of_find_none_set (hash : T → Nat) (s : UnorderedSet T)
    (hWF : s.WF hash) (k : T)
    (hnone : s.find_in_bucket k (s.hashIndex hash k) = none) :
    k ∉ s.entries := by
  rw [find_in_bucket_eq_entries_set hash s hWF k, List.find?_eq_none] at hnone
  intro hk
  exact hnone k hk (by simp)

theorem WF_emplaceAt_set (hash : T → Nat) {s : UnorderedSet T} (hWF : s.WF hash) {k : T}
    (hnone : s.find_in_bucket k (s.hashIndex hash k) = none) :
    (s.emplaceAt (s.hashIndex hash k) k).WF hash := by
  have hfresh := key_not_mem_of_find_none_set hash s hWF k hnone
  obtain ⟨hlen, hpos, hsz, hnd, hpl⟩ := hWF
  have hperm := entries_emplaceAt_perm_set hash s k hlen hpos
  have hi0 : s.hashIndex hash k < s.buckets.length := by
    rw [hashIndex, hlen]
    exact Nat.mod_lt _ hpos
  refine ⟨by simpa [emplaceAt] using hlen, hpos, ?_, ?_, ?_⟩
  · rw [hperm.length_eq]
    simp [emplaceAt, hsz]
  · exact (hperm.nodup_iff).2 (List.nodup_cons.2 ⟨hfresh, hnd⟩)
  · intro i hi x hx
    have hbc : (s.emplaceAt (s.hashIndex hash k) k).bucket_count_ = s.bucket_count_ := rfl
    rw [hbc]
    by_cases h : s.hashIndex hash k = i
    · subst h
      rw [show (s.emplaceAt (s.hashIndex hash k) k).buckets
          = s.buckets.set (s.hashIndex hash k)
              (s.buckets.getD (s.hashIndex hash k) [] ++ [k]) from rfl,
        getD_set_self hi0] at hx
      rcases List.mem_append.1 hx with h1 | h1
      · exact hpl _ hi0 x h1
      · rcases List.mem_singleton.1 h1 with rfl
        rfl
    · rw [show (s.emplaceAt (s.hashIndex hash k) k).buckets
          = s.buckets.set (s.hashIndex hash k)
              (s.buckets.getD (s.hashIndex hash k) [] ++ [k]) from rfl,
        getD_set_ne h] at hx
      have hlen2 : (s.emplaceAt (s.hashIndex hash k) k).buckets.length
          = s.buckets.length := by
        simp [emplaceAt]
      exact hpl i (by omega) x hx

theorem WF_growIfNeeded_set (hash : T → Nat) {s : UnorderedSet T} (hWF : s.WF hash) :
    (s.growIfNeeded hash).WF hash := by
  unfold growIfNeeded
  split
  · exact WF_rehash_set hash hWF (by have := hWF.2.1; omega)
  · exact hWF

theorem insert_eq_of_none_set (hash : T → Nat) (s : UnorderedSet T) (k : T)
    (hnone : s.find_in_bucket k (s.hashIndex hash k) = none) :
    s.insert hash k = ((s.emplaceAt (s.hashIndex hash k) k).growIfNeeded hash, true) := by
  simp only [insert, hnone]

theorem insert_eq_of_some_set (hash : T → Nat) (s : UnorderedSet T) (k : T)
    (x : T) (hsome : s.find_in_bucket k (s.hashIndex hash k) = some x) :
    s.insert hash k = (s, false) := by
  simp only [insert, hsome]

theorem WF_insert_set (hash : T → Nat) {s : UnorderedSet T} (hWF : s.WF hash) (k : T) :
    (s.insert hash k).1.WF hash := by
  cases hfb : s.find_in_bucket k (s.hashIndex hash k) with
  | some x =>
    rw [insert_eq_of_some_set hash s k x hfb]
    exact hWF
  | none =>
    rw [insert_eq_of_none_set hash s k hfb]
    exact WF_growIfNeeded_set hash (WF_emplaceAt_set hash hWF hfb)

theorem erase_eq_of_some_set (hash : T → Nat) (s : UnorderedSet T) (k : T)
    (x : T) (hsome : s.find_in_bucket k (s.hashIndex hash k) = some x) :
    s.erase hash k =
      ({ s with
          buckets := s.buckets.set (s.hashIndex hash k)
              ((s.buckets.getD (s.hashIndex hash k) []).eraseP (fun y => decide (y = k))),
          size_ := s.size_ - 1 }, true) := by
  simp only [erase, hsome]

theorem erase_eq_of_none_set (hash : T → Nat) (s : UnorderedSet T) (k : T)
    (hnone : s.find_in_bucket k (s.hashIndex hash k) = none) :
    s.erase hash k = (s, false) := by
  simp only [erase, hnone]

theorem WF_erase_set (hash : T → Nat) {s : UnorderedSet T} (hWF : s.WF hash) (k : T) :
    (s.erase hash k).1.WF hash := by
  cases hfb : s.find_in_bucket k (s.hashIndex hash k) with
  | none =>
    rw [erase_eq_of_none_set hash s k hfb]
    exact hWF
  | some x =>
    rw [erase_eq_of_some_set hash s k x hfb]
    obtain ⟨hlen, hpos, hsz, hnd, hpl⟩ := hWF
    have hi0 : s.hashIndex hash k < s.buckets.length := by
      rw [hashIndex, hlen]
      exact Nat.mod_lt _ hpos
    have hfb2 : (s.buckets.getD (s.hashIndex hash k) []).find?
        (fun y => decide (y = k)) = some x := hfb
    have hxmem : x ∈ s.buckets.getD (s.hashIndex hash k) [] :=
      List.mem_of_find?_eq_some hfb2
    have hxpred : decide (x = k) = true := by
      have h3 := List.find?_some hfb2
      simpa using h3
    have hlene : ((s.buckets.getD (s.hashIndex hash k) []).eraseP
        (fun y => decide (y = k))).length
        = (s.buckets.getD (s.hashIndex hash k) []).length - 1 :=
      List.length_eraseP_of_mem hxmem hxpred
    have hbne : 0 < (s.buckets.getD (s.hashIndex hash k) []).length :=
      List.length_pos_of_mem hxmem
    have hsub : List.Sublist ((s.buckets.getD (s.hashIndex hash k) []).eraseP
        (fun y => decide (y = k))) (s.buckets.getD (s.hashIndex hash k) []) :=
      List.eraseP_sublist _
    have hset : (s.buckets.set (s.hashIndex hash k)
        ((s.buckets.getD (s.hashIndex hash k) []).eraseP
          (fun y => decide (y = k)))).flatten
        = (s.buckets.take (s.hashIndex hash k)).flatten
          ++ (s.buckets.getD (s.hashIndex hash k) []).eraseP (fun y => decide (y = k))
          ++ (s.buckets.drop (s.hashIndex hash k + 1)).flatten :=
      flatten_set _ hi0
    have hdec := flatten_decompose hi0
    rw [entries, hdec] at hsz hnd
    refine WF_parts_set hash (by simpa using hlen) hpos ?_ ?_ ?_
    · rw [hset]
      simp only [List.length_append] at hsz ⊢
      omega
    · rw [hset]
      refine List.Nodup.sublist ?_ hnd
      exact ((List.Sublist.refl _).append hsub).append (List.Sublist.refl _)
    · intro i hi y hy
      by_cases h : s.hashIndex hash k = i
      · subst h
        rw [getD_set_self hi0] at hy
        exact hpl _ hi0 y (List.mem_of_mem_eraseP hy)
      · rw [getD_set_ne h] at hy
        rw [List.length_set] at hi
        exact hpl i hi y hy

theorem WF_clear_set (hash : T → Nat) {s : UnorderedSet T} (hWF : s.WF hash) :
    s.clear.WF hash := by
  obtain ⟨hlen, hpos, hsz, hnd, hpl⟩ := hWF
  have hent : (s.buckets.map (fun _ => ([] : List T))).flatten = [] := by
    rw [List.flatten_eq_nil_iff]
    intro l hl
    rcases List.mem_map.1 hl with ⟨b, hb, hbl⟩
    exact hbl.symm
  refine WF_parts_set hash (by simpa using hlen) hpos (by rw [hent]; rfl) (by rw [hent]; simp) ?_
  intro i hi y hy
  exfalso
  rw [List.getD_eq_getElem?_getD, List.getElem?_map] at hy
  cases hb : s.buckets[i]? with
  | none => rw [hb] at hy; cases hy
  | some b => rw [hb] at hy; cases hy

theorem entries_emplaceAt_eq_set (hash : T → Nat) (s : UnorderedSet T) (k : T)
    (hi0 : s.hashIndex hash k < s.buckets.length) :
    (s.emplaceAt (s.hashIndex hash k) k).entries
      = (s.buckets.take (s.hashIndex hash k)).flatten
        ++ (s.buckets.getD (s.hashIndex hash k) [] ++ [k])
        ++ (s.buckets.drop (s.hashIndex hash k + 1)).flatten := by
  unfold entries
  exact flatten_set _ hi0

theorem mem_entries_emplaceAt_set (hash : T → Nat) (s : UnorderedSet T) (k : T)
    (hi0 : s.hashIndex hash k < s.buckets.length) :
    k ∈ (s.emplaceAt (s.hashIndex hash k) k).entries := by
  rw [entries_emplaceAt_eq_set hash s k hi0]
  simp

theorem contains_after_insert_set (hash : T → Nat) {s : UnorderedSet T}
    (hlen : s.buckets.length = s.bucket_count_) (hpos : 0 < s.bucket_count_)
    (k : T) : (s.insert hash k).1.contains hash k = true := by
  cases hfb : s.find_in_bucket k (s.hashIndex hash k) with
  | some x =>
    rw [insert_eq_of_some_set hash s k x hfb]
    rw [contains, hfb]
    rfl
  | none =>
    rw [insert_eq_of_none_set hash s k hfb]
    have hi0 : s.hashIndex hash k < s.buckets.length := by
      rw [hashIndex, hlen]
      exact Nat.mod_lt _ hpos
    have hmem := mem_entries_emplaceAt_set hash s k hi0
    show ((s.emplaceAt (s.hashIndex hash k) k).growIfNeeded hash).contains hash k = true
    unfold growIfNeeded
    split
    · rw [contains, find_in_bucket_rehash_set hash _ (by
        show 0 < (s.emplaceAt (s.hashIndex hash k) k).bucket_count_ * 2
        show 0 < s.bucket_count_ * 2
        omega) k]
      exact List.find?_isSome.2 ⟨k, hmem, by simp⟩
    · rw [contains,
        show (s.emplaceAt (s.hashIndex hash k) k).find_in_bucket k
            ((s.emplaceAt (s.hashIndex hash k) k).hashIndex hash k)
          = ((s.buckets.set (s.hashIndex hash k)
              (s.buckets.getD (s.hashIndex hash k) [] ++ [k])).getD
              (s.hashIndex hash k) []).find? (fun y => decide (y = k)) from rfl,
        getD_set_self hi0]
      exact find?_append_singleton_isSome _ _ _ (by simp)

theorem insert_ret_iff_not_contains_set (hash : T → Nat) (s : UnorderedSet T) (k : T) :
    (s.insert hash k).2 = true ↔ s.contains hash k = false := by
  cases hfb : s.find_in_bucket k (s.hashIndex hash k) with
  | some x =>
    rw [insert_eq_of_some_set hash s k x hfb, contains, hfb]
    simp
  | none =>
    rw [insert_eq_of_none_set hash s k hfb, contains, hfb]
    simp

theorem load_factor_growIfNeeded_set (hash : T → Nat) {s : UnorderedSet T}
    (hpos : 0 < s.bucket_count_)
    (hle : (s.size_ : ℚ) ≤ (s.bucket_count_ : ℚ) * s.max_load_factor_ + 1)
    (hprod : 1 ≤ (s.bucket_count_ : ℚ) * s.max_load_factor_) :
    (s.growIfNeeded hash).load_factor ≤ (s.growIfNeeded hash).max_load_factor_ := by
  have hbc : (0 : ℚ) < (s.bucket_count_ : ℚ) := by exact_mod_cast hpos
  unfold growIfNeeded
  split
  · show ((s.rehash hash (s.bucket_count_ * 2)).size_ : ℚ)
        / ((s.rehash hash (s.bucket_count_ * 2)).bucket_count_ : ℚ)
        ≤ (s.rehash hash (s.bucket_count_ * 2)).max_load_factor_
    rw [size_rehash_set, bucket_count_rehash_set, mlf_rehash_set]
    rw [div_le_iff₀ (by push_cast; positivity)]
    push_cast
    nlinarith
  · next h =>
      show ((s.size_ : ℚ)) / ((s.bucket_count_ : ℚ)) ≤ s.max_load_factor_
      rw [div_le_iff₀ hbc]
      have h2 : ¬ ((s.size_ : ℚ) > (s.bucket_count_ : ℚ) * s.max_load_factor_) := h
      nlinarith [not_lt.1 h2]

end UnorderedSet


/-! ### Preservation of well-formedness under operation sequences -/

theorem WF_execMap {K V : Type} [DecidableEq K] (hash : K → Nat) (vdef : V)
    (ops : List (MapOp K V)) {t : UnorderedMap K V} (hWF : t.WF hash) :
    (execMap hash vdef ops t).WF hash := by
  induction ops generalizing t with
  | nil => exact hWF
  | cons op ops ih =>
    cases op with
    | ins k v => exact ih (UnorderedMap.WF_insert hash hWF k v)
    | upd k v => exact ih (UnorderedMap.WF_insert_or_assign hash hWF k v)
    | acc k => exact ih (UnorderedMap.WF_access hash vdef hWF k)
    | del k => exact ih (UnorderedMap.WF_erase hash hWF k)
    | clr => exact ih (UnorderedMap.WF_clear hash hWF)

theorem WF_execSet {T : Type} [DecidableEq T] (hash : T → Nat)
    (ops : List (SetOp T)) {s : UnorderedSet T} (hWF : s.WF hash) :
    (execSet hash ops s).WF hash := by
  induction ops generalizing s with
  | nil => exact hWF
  | cons op ops ih =>
    cases op with
    | ins k => exact ih (UnorderedSet.WF_insert_set hash hWF k)
    | del k => exact ih (UnorderedSet.WF_erase_set hash hWF k)
    | clr => exact ih (UnorderedSet.WF_clear_set hash hWF)

/-! ### The claims -/

/-- C3, amended: constructing a map or set performs no validation at all —
`bucket_count = 0` is stored verbatim (the resulting zero-bucket table is
unusable: every later hash computation would take a modulus by zero), and
`max_load_factor` stores any value, including non-positive ones, unchanged;
nothing is rejected and nothing is clamped to a default. -/
theorem C3_no_validation :
    (∀ (K V : Type) (bc : Nat),
      (UnorderedMap.make bc : UnorderedMap K V).bucket_count_ = bc ∧
      (UnorderedMap.make bc : UnorderedMap K V).size_ = 0 ∧
      (UnorderedMap.make bc : UnorderedMap K V).max_load_factor_ = 1) ∧
    (∀ (K V : Type) [DecidableEq K] (hash : K → Nat) (t : UnorderedMap K V) (f : ℚ),
      (t.max_load_factor hash f).max_load_factor_ = f) ∧
    (∀ (T : Type) (bc : Nat),
      (UnorderedSet.make bc : UnorderedSet T).bucket_count_ = bc ∧
      (UnorderedSet.make bc : UnorderedSet T).size_ = 0 ∧
      (UnorderedSet.make bc : UnorderedSet T).max_load_factor_ = 1) ∧
    (∀ (T : Type) [DecidableEq T] (hashT : T → Nat) (s : UnorderedSet T) (f : ℚ),
      (s.max_load_factor hashT f).max_load_factor_ = f) := by
  refine ⟨fun K V bc => ⟨rfl, rfl, rfl⟩, ?_, fun T bc => ⟨rfl, rfl, rfl⟩, ?_⟩
  · intro K V _ hash t f
    simp only [UnorderedMap.max_load_factor]
    split <;> rfl
  · intro T _ hashT s f
    simp only [UnorderedSet.max_load_factor]
    split <;> rfl

/-- C3, counterexample to the claim as stated: construction with
`bucket_count = 0` is not rejected — it succeeds and yields exactly the state
with an empty bucket array and `bucket_count_ = 0`; likewise
`max_load_factor(-1)` stores `-1` instead of rejecting it. -/
theorem C3_counterexample :
    (UnorderedMap.make 0 : UnorderedMap Nat Nat)
      = { buckets := [], size_ := 0, bucket_count_ := 0, max_load_factor_ := 1 } ∧
    ((UnorderedMap.make 10 : UnorderedMap Nat Nat).max_load_factor id
        (-1)).max_load_factor_ = -1 ∧
    (UnorderedSet.make 0 : UnorderedSet Nat)
      = { buckets := [], size_ := 0, bucket_count_ := 0, max_load_factor_ := 1 } := by
  refine ⟨by decide, by decide, by decide⟩

/-- C9: erasing an absent key returns `false` and leaves the whole state —
buckets (hence every stored entry), `size_`, `bucket_count_`,
`max_load_factor_` — literally unchanged, on both the map and the set. -/
theorem C9_erase_absent_is_noop :
    (∀ (K V : Type) [DecidableEq K] (hash : K → Nat) (t : UnorderedMap K V) (k : K),
      t.contains hash k = false → t.erase hash k = (t, false)) ∧
    (∀ (T : Type) [DecidableEq T] (hashT : T → Nat) (s : UnorderedSet T) (k : T),
      s.contains hashT k = false → s.erase hashT k = (s, false)) := by
  constructor
  · intro K V _ hash t k hc
    cases hfb : t.find_in_bucket k (t.hashIndex hash k) with
    | none => exact UnorderedMap.erase_eq_of_none hash t k hfb
    | some p =>
      rw [UnorderedMap.contains, hfb] at hc
      cases hc
  · intro T _ hashT s k hc
    cases hfb : s.find_in_bucket k (s.hashIndex hashT k) with
    | none => exact UnorderedSet.erase_eq_of_none_set hashT s k hfb
    | some x =>
      rw [UnorderedSet.contains, hfb] at hc
      cases hc

/-- C9 witness. -/
theorem C9_witness :
    (sampleMap 3 [0, 1]).erase id 5 = (sampleMap 3 [0, 1], false) ∧
    (sampleSet 3 [0, 1]).erase id 5 = (sampleSet 3 [0, 1], false) :=
  ⟨C9_erase_absent_is_noop.1 Nat Nat id (sampleMap 3 [0, 1]) 5 (by decide),
   C9_erase_absent_is_noop.2 Nat id (sampleSet 3 [0, 1]) 5 (by decide)⟩

/-- C10: a plain insert returns `true` exactly when `contains` was `false`
immediately before the call, and immediately after any insert of `k`
(successful or rejected) `contains k` is `true`, on both the map and the set. -/
theorem C10_insert_contains :
    (∀ (K V : Type) [DecidableEq K] (hash : K → Nat) (t : UnorderedMap K V)
      (k : K) (v : V),
      t.buckets.length = t.bucket_count_ → 0 < t.bucket_count_ →
      (((t.insert hash k v).2 = true ↔ t.contains hash k = false) ∧
        (t.insert hash k v).1.contains hash k = true)) ∧
    (∀ (T : Type) [DecidableEq T] (hashT : T → Nat) (s : UnorderedSet T) (k : T),
      s.buckets.length = s.bucket_count_ → 0 < s.bucket_count_ →
      (((s.insert hashT k).2 = true ↔ s.contains hashT k = false) ∧
        (s.insert hashT k).1.contains hashT k = true)) := by
  constructor
  · intro K V _ hash t k v hlen hpos
    exact ⟨UnorderedMap.insert_ret_iff_not_contains hash t k v,
      UnorderedMap.contains_after_insert hash hlen hpos k v⟩
  · intro T _ hashT s k hlen hpos
    exact ⟨UnorderedSet.insert_ret_iff_not_contains_set hashT s k,
      UnorderedSet.contains_after_insert_set hashT hlen hpos k⟩

/-- C10 witness. -/
theorem C10_witness :
    (((sampleMap 2 [7]).insert id 9 1).2 = true
        ↔ (sampleMap 2 [7]).contains id 9 = false) ∧
    ((sampleMap 2 [7]).insert id 9 1).1.contains id 9 = true ∧
    (((sampleSet 2 [7]).insert id 7).2 = true
        ↔ (sampleSet 2 [7]).contains id 7 = false) ∧
    ((sampleSet 2 [7]).insert id 7).1.contains id 7 = true := by
  have h1 := C10_insert_contains.1 Nat Nat id (sampleMap 2 [7]) 9 1 (by decide) (by decide)
  have h2 := C10_insert_contains.2 Nat id (sampleSet 2 [7]) 7 (by decide) (by decide)
  exact ⟨h1.1, h1.2, h2.1, h2.2⟩

/-- C8: evidence for the `operator[]` dangling-reference bug. For the concrete
map with one bucket already holding key 1, the key 2 is absent, and the
default-access of key 2 inserts it (size becomes 2) and triggers a rehash
during that very call (`bucket_count` goes from 1 to 2). In the C++ code the
returned reference `list.back().value` was captured before the rehash deleted
the old bucket array, so the call returns through a dangling reference instead
of reliably yielding the default value. -/
theorem C8_access_rehash_dangles :
    ((UnorderedMap.make 1 : UnorderedMap Nat Nat).insert id 1 10).1.contains id 2
        = false ∧
    (((UnorderedMap.make 1 : UnorderedMap Nat Nat).insert id 1 10).1.access id 0 2).2.size_
        = 2 ∧
    ((UnorderedMap.make 1 : UnorderedMap Nat Nat).insert id 1 10).1.bucket_count_ = 1 ∧
    (((UnorderedMap.make 1 : UnorderedMap Nat Nat).insert id 1 10).1.access id 0
        2).2.bucket_count_ = 2 := by
  refine ⟨by decide, by decide, by decide, by decide⟩


theorem rat_floor_eq_intFloor (q : ℚ) : Rat.floor q = ⌊q⌋ := by
  rw [Rat.floor_def', Rat.floor_def]

/-- C1, amended: `max_load_factor(f)` with `0 < f` always stores `f`; when
`load_factor() > f` it immediately and synchronously rehashes to
`floor(size / f) + 1` buckets — the C++ code computes `size_t(size_ / f + 1)`,
a truncation, not `ceil(size / f) + 1`; the two agree exactly when `f` divides
`size`; when `load_factor() <= f` it only stores `f` and changes nothing else.
Holds for both the map and the set. -/
theorem C1_set_max_load_factor_floor :
    (∀ (K V : Type) [DecidableEq K] (hash : K → Nat) (t : UnorderedMap K V) (f : ℚ),
      0 < f →
      (t.load_factor > f →
        (t.max_load_factor hash f).max_load_factor_ = f ∧
        (t.max_load_factor hash f).bucket_count_
          = (Rat.floor ((t.size_ : ℚ) / f)).toNat + 1) ∧
      (t.load_factor ≤ f →
        t.max_load_factor hash f = { t with max_load_factor_ := f })) ∧
    (∀ (T : Type) [DecidableEq T] (hashT : T → Nat) (s : UnorderedSet T) (f : ℚ),
      0 < f →
      (s.load_factor > f →
        (s.max_load_factor hashT f).max_load_factor_ = f ∧
        (s.max_load_factor hashT f).bucket_count_
          = (Rat.floor ((s.size_ : ℚ) / f)).toNat + 1) ∧
      (s.load_factor ≤ f →
        s.max_load_factor hashT f = { s with max_load_factor_ := f })) := by
  constructor
  · intro K V _ hash t f hf
    constructor
    · intro hgt
      have hgt2 : ({ t with max_load_factor_ := f } : UnorderedMap K V).load_factor
          > f := hgt
      simp only [UnorderedMap.max_load_factor, if_pos hgt2]
      refine ⟨rfl, ?_⟩
      show (Rat.floor ((t.size_ : ℚ) / f + 1)).toNat
          = (Rat.floor ((t.size_ : ℚ) / f)).toNat + 1
      rw [rat_floor_eq_intFloor, rat_floor_eq_intFloor, Int.floor_add_one]
      have h0 : 0 ≤ ⌊(t.size_ : ℚ) / f⌋ :=
        Int.floor_nonneg.2 (div_nonneg (Nat.cast_nonneg _) hf.le)
      omega
    · intro hle
      have hle2 : ¬ (({ t with max_load_factor_ := f } : UnorderedMap K V).load_factor
          > f) := not_lt.2 hle
      simp only [UnorderedMap.max_load_factor, if_neg hle2]
  · intro T _ hashT s f hf
    constructor
    · intro hgt
      have hgt2 : ({ s with max_load_factor_ := f } : UnorderedSet T).load_factor
          > f := hgt
      simp only [UnorderedSet.max_load_factor, if_pos hgt2]
      refine ⟨rfl, ?_⟩
      show (Rat.floor ((s.size_ : ℚ) / f + 1)).toNat
          = (Rat.floor ((s.size_ : ℚ) / f)).toNat + 1
      rw [rat_floor_eq_intFloor, rat_floor_eq_intFloor, Int.floor_add_one]
      have h0 : 0 ≤ ⌊(s.size_ : ℚ) / f⌋ :=
        Int.floor_nonneg.2 (div_nonneg (Nat.cast_nonneg _) hf.le)
      omega
    · intro hle
      have hle2 : ¬ (({ s with max_load_factor_ := f } : UnorderedSet T).load_factor
          > f) := not_lt.2 hle
      simp only [UnorderedSet.max_load_factor, if_neg hle2]

/-- C1, counterexample to the claim as stated: for the reachable map state with
5 entries in 6 buckets and `f = 3/4`, `load_factor = 5/6 > 3/4`, the claim
predicts `ceil(5 / (3/4)) + 1 = 8` buckets, but the shrink rehash produces
`size_t(5 / 0.75 + 1) = 7` buckets. -/
theorem C1_counterexample :
    (sampleMap 6 [0, 1, 2, 3, 4]).load_factor > (3 / 4 : ℚ) ∧
    ((sampleMap 6 [0, 1, 2, 3, 4]).max_load_factor id (3 / 4)).bucket_count_ = 7 ∧
    (Rat.ceil (((sampleMap 6 [0, 1, 2, 3, 4]).size_ : ℚ) / (3 / 4))).toNat + 1 = 8 := by
  refine ⟨by decide, by decide, by decide⟩

/-- C1 witness. -/
theorem C1_witness :
    ((sampleMap 4 [0, 1, 2]).max_load_factor id (1 / 2)).bucket_count_
      = (Rat.floor (((sampleMap 4 [0, 1, 2]).size_ : ℚ) / (1 / 2))).toNat + 1 ∧
    ((sampleMap 4 [0, 1, 2]).max_load_factor id (1 / 2)).max_load_factor_ = 1 / 2 ∧
    ((sampleSet 4 [0, 1, 2]).max_load_factor id (1 / 2)).bucket_count_
      = (Rat.floor (((sampleSet 4 [0, 1, 2]).size_ : ℚ) / (1 / 2))).toNat + 1 ∧
    (sampleMap 4 [0, 1, 2]).max_load_factor id 2
      = { sampleMap 4 [0, 1, 2] with max_load_factor_ := 2 } := by
  have hm := C1_set_max_load_factor_floor.1 Nat Nat id (sampleMap 4 [0, 1, 2]) (1 / 2)
    (by norm_num)
  have hm2 := C1_set_max_load_factor_floor.1 Nat Nat id (sampleMap 4 [0, 1, 2]) 2
    (by norm_num)
  have hs := C1_set_max_load_factor_floor.2 Nat id (sampleSet 4 [0, 1, 2]) (1 / 2)
    (by norm_num)
  exact ⟨(hm.1 (by decide)).2, (hm.1 (by decide)).1, (hs.1 (by decide)).2,
    hm2.2 (by decide)⟩

/-- C2, amended: immediately after a size-increasing insert (plain `insert`,
`insert_or_assign` on an absent key, or `operator[]` on an absent key),
`load_factor() <= max_load_factor()` holds provided that, at the time of the
insert, `load_factor() <= max_load_factor()` already held and
`bucket_count * max_load_factor >= 1`. (Without the latter hypothesis the
single doubling performed by the code can be insufficient — see the
counterexample.) -/
theorem C2_load_factor_invariant :
    (∀ (K V : Type) [DecidableEq K] (hash : K → Nat) (vdef : V)
      (t : UnorderedMap K V) (k : K) (v : V),
      0 < t.bucket_count_ →
      t.load_factor ≤ t.max_load_factor_ →
      1 ≤ (t.bucket_count_ : ℚ) * t.max_load_factor_ →
      (((t.insert hash k v).2 = true →
          (t.insert hash k v).1.load_factor ≤ (t.insert hash k v).1.max_load_factor_) ∧
        (t.contains hash k = false →
          (t.insert_or_assign hash k v).load_factor
            ≤ (t.insert_or_assign hash k v).max_load_factor_) ∧
        (t.contains hash k = false →
          (t.access hash vdef k).2.load_factor
            ≤ (t.access hash vdef k).2.max_load_factor_))) ∧
    (∀ (T : Type) [DecidableEq T] (hashT : T → Nat) (s : UnorderedSet T) (k : T),
      0 < s.bucket_count_ →
      s.load_factor ≤ s.max_load_factor_ →
      1 ≤ (s.bucket_count_ : ℚ) * s.max_load_factor_ →
      ((s.insert hashT k).2 = true →
        (s.insert hashT k).1.load_factor ≤ (s.insert hashT k).1.max_load_factor_)) := by
  constructor
  · intro K V _ hash vdef t k v hpos hlf hprod
    have hbc : (0 : ℚ) < (t.bucket_count_ : ℚ) := by exact_mod_cast hpos
    have hsize : (t.size_ : ℚ) ≤ t.max_load_factor_ * (t.bucket_count_ : ℚ) := by
      rw [UnorderedMap.load_factor, div_le_iff₀ hbc] at hlf
      exact hlf
    have hgrow : ((t.emplaceAt (t.hashIndex hash k) k v).growIfNeeded hash).load_factor
        ≤ ((t.emplaceAt (t.hashIndex hash k) k v).growIfNeeded hash).max_load_factor_ := by
      refine UnorderedMap.load_factor_growIfNeeded hash hpos ?_ hprod
      show ((t.size_ + 1 : ℕ) : ℚ)
          ≤ (t.bucket_count_ : ℚ) * t.max_load_factor_ + 1
      push_cast
      nlinarith
    refine ⟨?_, ?_, ?_⟩
    · intro hret
      cases hfb : t.find_in_bucket k (t.hashIndex hash k) with
      | some p =>
        rw [UnorderedMap.insert_eq_of_some hash t k v p hfb] at hret
        cases hret
      | none =>
        rw [UnorderedMap.insert_eq_of_none hash t k v hfb]
        exact hgrow
    · intro hc
      cases hfb : t.find_in_bucket k (t.hashIndex hash k) with
      | some p =>
        rw [UnorderedMap.contains, hfb] at hc
        cases hc
      | none =>
        rw [UnorderedMap.ioa_eq_of_none hash t k v hfb]
        exact hgrow
    · intro hc
      cases hfb : t.find_in_bucket k (t.hashIndex hash k) with
      | some p =>
        rw [UnorderedMap.contains, hfb] at hc
        cases hc
      | none =>
        rw [UnorderedMap.access_eq_of_none hash vdef t k hfb]
        exact UnorderedMap.load_factor_growIfNeeded hash hpos (by
          show ((t.size_ + 1 : ℕ) : ℚ)
              ≤ (t.bucket_count_ : ℚ) * t.max_load_factor_ + 1
          push_cast
          nlinarith) hprod
  · intro T _ hashT s k hpos hlf hprod
    have hbc : (0 : ℚ) < (s.bucket_count_ : ℚ) := by exact_mod_cast hpos
    have hsize : (s.size_ : ℚ) ≤ s.max_load_factor_ * (s.bucket_count_ : ℚ) := by
      rw [UnorderedSet.load_factor, div_le_iff₀ hbc] at hlf
      exact hlf
    intro hret
    cases hfb : s.find_in_bucket k (s.hashIndex hashT k) with
    | some x =>
      rw [UnorderedSet.insert_eq_of_some_set hashT s k x hfb] at hret
      cases hret
    | none =>
      rw [UnorderedSet.insert_eq_of_none_set hashT s k hfb]
      refine UnorderedSet.load_factor_growIfNeeded_set hashT hpos ?_ hprod
      show ((s.size_ + 1 : ℕ) : ℚ)
          ≤ (s.bucket_count_ : ℚ) * s.max_load_factor_ + 1
      push_cast
      nlinarith

/-- C2, counterexample to the claim as stated: the reachable map state with one
bucket and `max_load_factor = 0.3` (set while the map was empty, so no rehash
fired). The first insert raises the size to 1, doubles the bucket array once
(to 2 buckets), yet afterwards `load_factor() = 1/2 > 0.3 = max_load_factor()`. -/
theorem C2_counterexample :
    (((UnorderedMap.make 1 : UnorderedMap Nat Nat).max_load_factor id (3 / 10)).insert
        id 0 0).2 = true ∧
    ((((UnorderedMap.make 1 : UnorderedMap Nat Nat).max_load_factor id (3 / 10)).insert
        id 0 0).1.load_factor
      > ((((UnorderedMap.make 1 : UnorderedMap Nat Nat).max_load_factor id
          (3 / 10)).insert id 0 0).1.max_load_factor_)) := by
  refine ⟨by decide, by decide⟩

/-- C2 witness. -/
theorem C2_witness :
    ((UnorderedMap.make 2 : UnorderedMap Nat Nat).insert id 5 1).1.load_factor
      ≤ ((UnorderedMap.make 2 : UnorderedMap Nat Nat).insert id 5 1).1.max_load_factor_ ∧
    ((UnorderedMap.make 2 : UnorderedMap Nat Nat).insert_or_assign id 5 1).load_factor
      ≤ ((UnorderedMap.make 2 : UnorderedMap Nat Nat).insert_or_assign id
          5 1).max_load_factor_ ∧
    ((UnorderedMap.make 2 : UnorderedMap Nat Nat).access id 0 5).2.load_factor
      ≤ ((UnorderedMap.make 2 : UnorderedMap Nat Nat).access id 0 5).2.max_load_factor_ ∧
    ((UnorderedSet.make 2 : UnorderedSet Nat).insert id 5).1.load_factor
      ≤ ((UnorderedSet.make 2 : UnorderedSet Nat).insert id 5).1.max_load_factor_ := by
  have hm := C2_load_factor_invariant.1 Nat Nat id 0 (UnorderedMap.make 2) 5 1
    (by decide) (by decide) (by decide)
  have hs := C2_load_factor_invariant.2 Nat id (UnorderedSet.make 2) 5
    (by decide) (by decide) (by decide)
  exact ⟨hm.1 (by decide), hm.2.1 (by decide), hm.2.2 (by decide), hs (by decide)⟩

/-- C4: whenever a successful insert pushes the size over the threshold
(`size + 1 > bucket_count * max_load_factor`), the bucket count afterwards is
exactly double its prior value and every key present before the insert is still
found with its prior value; in particular, a map constructed with 4 buckets
(default `max_load_factor` 1.0) holds 4 entries without rehash and reaches
exactly 8 buckets on the 5th distinct insert. -/
theorem C4_growth_rehash_doubles :
    (∀ (K V : Type) [DecidableEq K] (hash : K → Nat) (t t1 : UnorderedMap K V)
      (k : K) (v : V),
      t.WF hash →
      t.insert hash k v = (t1, true) →
      ((t.size_ : ℚ) + 1 > (t.bucket_count_ : ℚ) * t.max_load_factor_ →
        (t1.bucket_count_ = 2 * t.bucket_count_ ∧
          ∀ (k0 : K) (v0 : V), t.find_value hash k0 = some v0 →
            t1.find_value hash k0 = some v0))) ∧
    (sampleMap 4 [10, 11, 12, 13]).bucket_count_ = 4 ∧
    (sampleMap 4 [10, 11, 12, 13]).size_ = 4 ∧
    (sampleMap 4 [10, 11, 12, 13, 14]).bucket_count_ = 8 ∧
    (sampleMap 4 [10, 11, 12, 13, 14]).size_ = 5 := by
  refine ⟨?_, by decide, by decide, by decide, by decide⟩
  intro K V _ hash t t1 k v hWF hins
  cases hfb : t.find_in_bucket k (t.hashIndex hash k) with
  | some p =>
    rw [UnorderedMap.insert_eq_of_some hash t k v p hfb] at hins
    have hc := congrArg Prod.snd hins
    cases hc
  | none =>
    rw [UnorderedMap.insert_eq_of_none hash t k v hfb] at hins
    have ht1 : t1 = (t.emplaceAt (t.hashIndex hash k) k v).growIfNeeded hash :=
      (congrArg Prod.fst hins).symm
    subst ht1
    intro htrig
    have hcond : ((t.emplaceAt (t.hashIndex hash k) k v).size_ : ℚ)
        > ((t.emplaceAt (t.hashIndex hash k) k v).bucket_count_ : ℚ)
          * (t.emplaceAt (t.hashIndex hash k) k v).max_load_factor_ := by
      show ((t.size_ + 1 : ℕ) : ℚ) > (t.bucket_count_ : ℚ) * t.max_load_factor_
      push_cast
      exact htrig
    constructor
    · simp only [UnorderedMap.growIfNeeded, if_pos hcond]
      show t.bucket_count_ * 2 = 2 * t.bucket_count_
      exact Nat.mul_comm _ _
    · intro k0 v0 hfv
      exact UnorderedMap.find_value_after_insert hash hWF v hfb hfv

/-- C4 witness. -/
theorem C4_witness :
    (sampleMap 1 [3, 4]).bucket_count_ = 2 * (sampleMap 1 [3]).bucket_count_ ∧
    (sampleMap 1 [3, 4]).find_value id 3 = some 0 := by
  have h := (C4_growth_rehash_doubles.1 Nat Nat id (sampleMap 1 [3])
    (sampleMap 1 [3, 4]) 4 0 (by decide) (by decide)) (by decide)
  exact ⟨h.1, h.2 3 0 (by decide)⟩

/-- C5: starting from a freshly constructed table (with a positive bucket
count) and running any sequence of insert / insert_or_assign / access / erase /
clear operations (rehashes fire inside the inserting ones), the stored `size_`
counter equals the number of entries actually present across all buckets,
which equals the number of distinct keys present — for both map and set. -/
theorem C5_size_invariant :
    (∀ (K V : Type) [DecidableEq K] (hash : K → Nat) (vdef : V) (bc : Nat)
      (ops : List (MapOp K V)), 0 < bc →
      ((execMap hash vdef ops (UnorderedMap.make bc)).size_
          = (execMap hash vdef ops (UnorderedMap.make bc)).entries.length ∧
        (execMap hash vdef ops (UnorderedMap.make bc)).size_
          = ((execMap hash vdef ops (UnorderedMap.make bc)).entries.map
              Prod.fst).dedup.length)) ∧
    (∀ (T : Type) [DecidableEq T] (hashT : T → Nat) (bc : Nat)
      (ops : List (SetOp T)), 0 < bc →
      ((execSet hashT ops (UnorderedSet.make bc)).size_
          = (execSet hashT ops (UnorderedSet.make bc)).entries.length ∧
        (execSet hashT ops (UnorderedSet.make bc)).size_
          = (execSet hashT ops (UnorderedSet.make bc)).entries.dedup.length)) := by
  constructor
  · intro K V _ hash vdef bc ops hbc
    obtain ⟨hlen, hpos, hsz, hnd, hpl⟩ :=
      WF_execMap hash vdef ops (UnorderedMap.WF_make hash hbc)
    refine ⟨hsz, ?_⟩
    rw [List.Nodup.dedup hnd, List.length_map]
    exact hsz
  · intro T _ hashT bc ops hbc
    obtain ⟨hlen, hpos, hsz, hnd, hpl⟩ :=
      WF_execSet hashT ops (UnorderedSet.WF_make_set hashT hbc)
    refine ⟨hsz, ?_⟩
    rw [List.Nodup.dedup hnd]
    exact hsz

/-- C5 witness. -/
theorem C5_witness :
    ((execMap id 0 [MapOp.ins 1 10, MapOp.acc 2, MapOp.upd 1 11, MapOp.del 1,
        MapOp.ins 3 7, MapOp.clr, MapOp.ins 4 2] (UnorderedMap.make 2)).size_
      = (execMap id 0 [MapOp.ins 1 10, MapOp.acc 2, MapOp.upd 1 11, MapOp.del 1,
        MapOp.ins 3 7, MapOp.clr, MapOp.ins 4 2] (UnorderedMap.make 2)).entries.length) ∧
    ((execSet id [SetOp.ins 1, SetOp.ins 5, SetOp.del 1, SetOp.ins 9]
        (UnorderedSet.make 2)).size_
      = (execSet id [SetOp.ins 1, SetOp.ins 5, SetOp.del 1, SetOp.ins 9]
        (UnorderedSet.make 2)).entries.dedup.length) :=
  ⟨(C5_size_invariant.1 Nat Nat id 0 2 _ (by decide)).1,
   (C5_size_invariant.2 Nat id 2 _ (by decide)).2⟩

/-- C6: after `insert(k, v1)` succeeds, a second plain `insert(k, v2)` returns
`false` and leaves the table state literally unchanged (REJECT policy), and the
value stored under `k` is still `v1`. -/
theorem C6_second_insert_rejected :
    ∀ (K V : Type) [DecidableEq K] (hash : K → Nat) (t t1 : UnorderedMap K V)
      (k : K) (v1 v2 : V),
      t.WF hash →
      t.insert hash k v1 = (t1, true) →
      (t1.insert hash k v2 = (t1, false) ∧ t1.find_value hash k = some v1) := by
  intro K V _ hash t t1 k v1 v2 hWF hins
  cases hfb : t.find_in_bucket k (t.hashIndex hash k) with
  | some p =>
    rw [UnorderedMap.insert_eq_of_some hash t k v1 p hfb] at hins
    have hc := congrArg Prod.snd hins
    cases hc
  | none =>
    rw [UnorderedMap.insert_eq_of_none hash t k v1 hfb] at hins
    have ht1 : t1 = (t.emplaceAt (t.hashIndex hash k) k v1).growIfNeeded hash :=
      (congrArg Prod.fst hins).symm
    subst ht1
    have hWFe := UnorderedMap.WF_emplaceAt hash hWF v1 hfb
    have hWF1 := UnorderedMap.WF_growIfNeeded hash hWFe
    have hi0 : t.hashIndex hash k < t.buckets.length := by
      rw [UnorderedMap.hashIndex, hWF.1]
      exact Nat.mod_lt _ hWF.2.1
    have hmem : (k, v1) ∈ ((t.emplaceAt (t.hashIndex hash k) k v1).growIfNeeded
        hash).entries :=
      ((UnorderedMap.entries_growIfNeeded_perm
          (t := t.emplaceAt (t.hashIndex hash k) k v1) hash hWF.2.1).mem_iff).2
        (UnorderedMap.mem_entries_emplaceAt hash t k v1 hi0)
    have hfv := UnorderedMap.find_value_of_mem hash hWF1 hmem
    refine ⟨?_, hfv⟩
    cases hfb2 : ((t.emplaceAt (t.hashIndex hash k) k v1).growIfNeeded
        hash).find_in_bucket k (((t.emplaceAt (t.hashIndex hash k) k
        v1).growIfNeeded hash).hashIndex hash k) with
    | none =>
      rw [UnorderedMap.find_value, hfb2] at hfv
      cases hfv
    | some p2 =>
      exact UnorderedMap.insert_eq_of_some hash _ k v2 p2 hfb2

/-- C6 witness. -/
theorem C6_witness :
    (sampleMap 3 [0]).insert id 0 7 = (sampleMap 3 [0], false) ∧
    (sampleMap 3 [0]).find_value id 0 = some 0 := by
  have h := C6_second_insert_rejected Nat Nat id (UnorderedMap.make 3)
    (sampleMap 3 [0]) 0 0 7 (by decide) (by decide)
  exact h

/-- C7: `insert_or_assign(k, v2)` on a key already present leaves `size()`
unchanged and overwrites the stored value with exactly `v2`, so a subsequent
lookup of `k` yields `v2`. -/
theorem C7_assign_existing_key :
    ∀ (K V : Type) [DecidableEq K] (hash : K → Nat) (t : UnorderedMap K V)
      (k : K) (v2 : V),
      t.buckets.length = t.bucket_count_ → 0 < t.bucket_count_ →
      t.contains hash k = true →
      ((t.insert_or_assign hash k v2).size_ = t.size_ ∧
        (t.insert_or_assign hash k v2).find_value hash k = some v2) := by
  intro K V _ hash t k v2 hlen hpos hc
  cases hfb : t.find_in_bucket k (t.hashIndex hash k) with
  | none =>
    rw [UnorderedMap.contains, hfb] at hc
    cases hc
  | some p =>
    rw [UnorderedMap.ioa_eq_of_some hash t k v2 p hfb]
    have hi0 : t.hashIndex hash k < t.buckets.length := by
      rw [UnorderedMap.hashIndex, hlen]
      exact Nat.mod_lt _ hpos
    have hfb2 : (t.buckets.getD (t.hashIndex hash k) []).find?
        (fun q => decide (q.1 = k)) = some p := hfb
    refine ⟨rfl, ?_⟩
    rw [UnorderedMap.find_value,
      show ({ t with
          buckets := t.buckets.set (t.hashIndex hash k)
              (UnorderedMap.assignInBucket k v2
                (t.buckets.getD (t.hashIndex hash k) [])) } :
          UnorderedMap K V).find_in_bucket k
          (({ t with
          buckets := t.buckets.set (t.hashIndex hash k)
              (UnorderedMap.assignInBucket k v2
                (t.buckets.getD (t.hashIndex hash k) [])) } :
          UnorderedMap K V).hashIndex hash k)
        = ((t.buckets.set (t.hashIndex hash k)
            (UnorderedMap.assignInBucket k v2
              (t.buckets.getD (t.hashIndex hash k) []))).getD
            (t.hashIndex hash k) []).find? (fun q => decide (q.1 = k)) from rfl,
      getD_set_self hi0, UnorderedMap.find?_assignInBucket v2 hfb2]
    rfl

/-- C7 witness. -/
theorem C7_witness :
    ((sampleMap 3 [0, 1]).insert_or_assign id 1 42).size_ = (sampleMap 3 [0, 1]).size_ ∧
    ((sampleMap 3 [0, 1]).insert_or_assign id 1 42).find_value id 1 = some 42 := by
  exact C7_assign_existing_key Nat Nat id (sampleMap 3 [0, 1]) 1 42
    (by decide) (by decide) (by decide)


end LLD
